import Mathlib

/-!
# ms::Function — a reference-counted, type-erased callable container

Shallow embedding of `function.hpp` (namespace `ms`).

* A heap object `Invokable<T>` is an `Invokable`: its `_ref_counter` and the stored
  `_function_type`.  A pointer `IInvokable*` is an `Option Nat`: `none` is `nullptr`,
  `some p` is the object created by the `p`-th `new`-expression of the run.  Pointers are
  object identities, not storage addresses: a deleted cell keeps its index and is `none`.
* A `Function` object is a slot of `State.handles`; its index is its identity (`this`),
  the slot holds the member `_invokable`, and `none` marks an object whose lifetime ended.
* `std::size_t` is the 64-bit unsigned type: `++` and `--` wrap modulo `SIZE_MAX + 1`.
* Operations with undefined behaviour in C++ (dereferencing `nullptr`, touching a deleted
  object, using a destroyed `Function`) return `Except.error`.
* A stored callable acts on its own value only (`Callable.call` returns the result and the
  new value).  A callable that invokes `Function` objects while it runs returns a `Body`,
  the rest of its run, which `exec` carries out with `Function::operator()`.
* `int` is the 32-bit signed type; the value of an `int` addition is wrapped by `wrapInt`.
-/

namespace ms

/-- Largest value of `std::size_t` (64-bit). -/
def SIZE_MAX : Nat := 18446744073709551615

/-- Custom exception class, thrown by `operator()` when `_invokable` is `nullptr`. -/
inductive BadFunctionCall where
  | mk
  deriving DecidableEq

/-- Member `what()` of `BadFunctionCall`. -/
def BadFunctionCall.what (_ : BadFunctionCall) : String := "BadFunctionCall exception\n"

/-- The ways an operation can leave defined behaviour. -/
inductive Undefined where
  | nullDeref
  | dangling
  | deadHandle
  deriving DecidableEq

/-- A callable value of some concrete type `T` (free-function pointer, functor, closure):
the value itself and its `operator()`, which returns the result together with the value of
the object after the call (a functor may change its own fields). -/
structure Callable (A R : Type) where
  T : Type
  val : T
  call : T → A → R × T

/-- Direct invocation `c(args...)` of a callable value. -/
def Callable.apply {A R : Type} (c : Callable A R) (args : A) : R × Callable A R :=
  ((c.call c.val args).1, { c with val := (c.call c.val args).2 })

/-- Heap object `Invokable<T> : IInvokable`: the reference counter and the stored callable. -/
structure Invokable (A R : Type) where
  _ref_counter : Nat
  _function_type : Callable A R

/-- Method `Invokable::call`: `return _function_type(args...);`. -/
def Invokable.call {A R : Type} (o : Invokable A R) (args : A) : R × Invokable A R :=
  ((o._function_type.apply args).1, { o with _function_type := (o._function_type.apply args).2 })

/-- Program state: the `IInvokable` objects created so far (`none` once deleted), the
`Function` objects created so far (`none` once destroyed), and the log of executed
`delete`-expressions, most recent first. -/
structure State (A R : Type) where
  heap : List (Option (Invokable A R))
  handles : List (Option (Option Nat))
  deleted : List Nat

variable {A R : Type}

/-- The state of a program that has created nothing yet. -/
def State.empty : State A R := ⟨[], [], []⟩

/-- Dereference `*p` of an `IInvokable*`. -/
def State.load (s : State A R) (p : Option Nat) : Except Undefined (Nat × Invokable A R) :=
  match p with
  | none => .error .nullDeref
  | some a =>
    match s.heap[a]? with
    | some (some o) => .ok (a, o)
    | _ => .error .dangling

/-- Write back the object at index `a`. -/
def State.store (s : State A R) (a : Nat) (o : Invokable A R) : State A R :=
  { s with heap := s.heap.set a (some o) }

/-- Expression `new Invokable<FunctionType>(func_type)`: a new object holding a copy of
`func_type`, with `IInvokable() : _ref_counter{0}`. -/
def State.new (s : State A R) (func_type : Callable A R) : State A R × Nat :=
  ({ s with heap := s.heap ++ [some ⟨0, func_type⟩] }, s.heap.length)

/-- Statement `++(p->_ref_counter)`. -/
def State.incr (s : State A R) (p : Option Nat) : Except Undefined (State A R) :=
  match s.load p with
  | .error e => .error e
  | .ok (a, o) => .ok (s.store a { o with _ref_counter := (o._ref_counter + 1) % (SIZE_MAX + 1) })

/-- Statement `--(p->_ref_counter)`. -/
def State.decr (s : State A R) (p : Option Nat) : Except Undefined (State A R) :=
  match s.load p with
  | .error e => .error e
  | .ok (a, o) =>
    .ok (s.store a { o with _ref_counter := (o._ref_counter + SIZE_MAX) % (SIZE_MAX + 1) })

/-- Statement `delete p` (`delete nullptr` does nothing). -/
def State.delete (s : State A R) (p : Option Nat) : Except Undefined (State A R) :=
  match p with
  | none => .ok s
  | some _ =>
    match s.load p with
    | .error e => .error e
    | .ok (a, _) => .ok { s with heap := s.heap.set a none, deleted := a :: s.deleted }

/-- The block shared by both assignment operators and the destructor:
`if (_invokable->_ref_counter == 1) { delete _invokable; } else { --(_invokable->_ref_counter); }`. -/
def State.release (s : State A R) (p : Option Nat) : Except Undefined (State A R) :=
  match s.load p with
  | .error e => .error e
  | .ok (_, o) => if o._ref_counter = 1 then s.delete p else s.decr p

/-- Read the member `_invokable` of the `Function` object `h`. -/
def State.readInvokable (s : State A R) (h : Nat) : Except Undefined (Option Nat) :=
  match s.handles[h]? with
  | some (some p) => .ok p
  | _ => .error .deadHandle

/-- Assign the member `_invokable` of the `Function` object `h`. -/
def State.writeInvokable (s : State A R) (h : Nat) (p : Option Nat) : State A R :=
  { s with handles := s.handles.set h (some p) }

/-- Start of every constructor: a new `Function` object with `_invokable{nullptr}`. -/
def State.declare (s : State A R) : State A R × Nat :=
  ({ s with handles := s.handles ++ [some none] }, s.handles.length)

/-- End of the lifetime of the `Function` object `h`. -/
def State.endLifetime (s : State A R) (h : Nat) : State A R :=
  { s with handles := s.handles.set h none }

/-- Default constructor `Function() : _invokable{nullptr} {}`. -/
def Function.ctor_default (s : State A R) : State A R × Nat :=
  s.declare

/-- Template value constructor `Function(FunctionType func_type)`. -/
def Function.ctor_value (s : State A R) (func_type : Callable A R) :
    Except Undefined (State A R × Nat) :=
  let (s1, this) := s.declare
  let (s2, p) := s1.new func_type
  let s3 := s2.writeInvokable this (some p)
  match s3.incr (some p) with
  | .error e => .error e
  | .ok s4 => .ok (s4, this)

/-- Copy constructor `Function(const Function &func)`. -/
def Function.ctor_copy (s : State A R) (func : Nat) : Except Undefined (State A R × Nat) :=
  let (s1, this) := s.declare
  match s1.readInvokable func with
  | .error e => .error e
  | .ok p =>
    let s2 := s1.writeInvokable this p
    match s2.incr p with
    | .error e => .error e
    | .ok s3 => .ok (s3, this)

/-- The release block of the assignment operators:
`if (_invokable != nullptr) { <release>; _invokable = nullptr; }`. -/
def Function.drop (s : State A R) (this : Nat) : Except Undefined (State A R) :=
  match s.readInvokable this with
  | .error e => .error e
  | .ok none => .ok s
  | .ok (some p) =>
    match s.release (some p) with
    | .error e => .error e
    | .ok s1 => .ok (s1.writeInvokable this none)

/-- Copy assignment operator `Function &operator=(Function &func)`. -/
def Function.assign (s : State A R) (this func : Nat) : Except Undefined (State A R) :=
  if this = func then .ok s
  else
    match Function.drop s this with
    | .error e => .error e
    | .ok s1 =>
      match s1.readInvokable func with
      | .error e => .error e
      | .ok none => .ok s1
      | .ok (some q) => (s1.writeInvokable this (some q)).incr (some q)

/-- Template copy assignment operator `Function &operator=(const FunctionType func_type)`. -/
def Function.assign_value (s : State A R) (this : Nat) (func_type : Callable A R) :
    Except Undefined (State A R) :=
  match Function.drop s this with
  | .error e => .error e
  | .ok s1 =>
    let (s2, p) := s1.new func_type
    (s2.writeInvokable this (some p)).incr (some p)

/-- Destructor `~Function()`. -/
def Function.dtor (s : State A R) (this : Nat) : Except Undefined (State A R) :=
  match s.readInvokable this with
  | .error e => .error e
  | .ok none => .ok (s.endLifetime this)
  | .ok (some p) =>
    match s.release (some p) with
    | .error e => .error e
    | .ok s1 => .ok (s1.endLifetime this)

/-- Functor operator `ResultType operator()(ArgumentTypes... args)`: the outcome is the
returned value or the thrown `BadFunctionCall`, together with the state afterwards. -/
def Function.call (s : State A R) (this : Nat) (args : A) :
    Except Undefined (Except BadFunctionCall R × State A R) :=
  match s.readInvokable this with
  | .error e => .error e
  | .ok none => .ok (.error .mk, s)
  | .ok (some p) =>
    match s.load (some p) with
    | .error e => .error e
    | .ok (a, o) => .ok (.ok (o.call args).1, s.store a (o.call args).2)

/-- Conversion `explicit operator bool() const`. -/
def Function.toBool (s : State A R) (this : Nat) : Except Undefined Bool :=
  match s.readInvokable this with
  | .error e => .error e
  | .ok p => .ok (p != none)

/-- Free function `int one_hundred_ret_func()` of the test program. -/
def one_hundred_ret_func : Callable Unit Int := ⟨Unit, (), fun f _ => (100, f)⟩

/-- Functor `struct two_hundred_ret_functor` of the test program. -/
def two_hundred_ret_functor : Callable Unit Int := ⟨Unit, (), fun f _ => (200, f)⟩

/-! ## Runs of operations and the counting invariant -/

/-- Number of living `Function` objects whose `_invokable` points to object `p`. -/
def State.refs (s : State A R) (p : Nat) : Nat :=
  s.handles.countP (fun x => decide (x = some (some p)))

/-- Number of living `Function` objects. -/
def State.liveHandles (s : State A R) : Nat :=
  s.handles.countP Option.isSome

/-- Counting invariant of a state: a bound `Function` points to a live object; the counter
of every live object equals the number of living `Function` objects pointing to it, and
that number is at least one; the living `Function` objects can be counted in a
`std::size_t`. -/
structure State.Inv (s : State A R) : Prop where
  bound_live : ∀ a p : Nat, s.handles[a]? = some (some (some p)) →
    ∃ o : Invokable A R, s.heap[p]? = some (some o)
  counted : ∀ (p : Nat) (o : Invokable A R), s.heap[p]? = some (some o) →
    o._ref_counter = s.refs p ∧ 1 ≤ s.refs p
  fits : s.liveHandles ≤ SIZE_MAX

/-- The public operations of `Function`, applied to `Function` objects of the state. -/
inductive Op (A R : Type) where
  | ctor_default
  | ctor_value (func_type : Callable A R)
  | ctor_copy (func : Nat)
  | assign (this func : Nat)
  | assign_value (this : Nat) (func_type : Callable A R)
  | call (this : Nat) (args : A)
  | dtor (this : Nat)

/-- State after one public operation (a thrown `BadFunctionCall` is caught by the caller). -/
def Op.run (s : State A R) : Op A R → Except Undefined (State A R)
  | .ctor_default => .ok (Function.ctor_default s).1
  | .ctor_value func_type =>
    match Function.ctor_value s func_type with
    | .error e => .error e
    | .ok (s1, _) => .ok s1
  | .ctor_copy func =>
    match Function.ctor_copy s func with
    | .error e => .error e
    | .ok (s1, _) => .ok s1
  | .assign this func => Function.assign s this func
  | .assign_value this func_type => Function.assign_value s this func_type
  | .call this args =>
    match Function.call s this args with
    | .error e => .error e
    | .ok (_, s1) => .ok s1
  | .dtor this => Function.dtor s this

/-- Whether the operation creates a new `Function` object. -/
def Op.constructs : Op A R → Bool
  | .ctor_default => true
  | .ctor_value _ => true
  | .ctor_copy _ => true
  | _ => false

/-- States a program reaches from the empty state by public operations with defined
behaviour.  A constructor runs only where the machine has room for one more `Function`
object, that is while fewer than `SIZE_MAX` of them are alive. -/
inductive Reachable : State A R → Prop where
  | init : Reachable State.empty
  | step (s s1 : State A R) (op : Op A R) :
      Reachable s → (op.constructs = true → s.liveHandles < SIZE_MAX) →
      op.run s = .ok s1 → Reachable s1

/-- Copy-construct `n` new `Function` objects from `func`, one after the other. -/
def copies (s : State A R) (func : Nat) : Nat → Except Undefined (State A R)
  | 0 => .ok s
  | n + 1 =>
    match Function.ctor_copy s func with
    | .error e => .error e
    | .ok (s1, _) => copies s1 func n

/-- Destroy the listed `Function` objects in the order of the list. -/
def destroyAll (s : State A R) : List Nat → Except Undefined (State A R)
  | [] => .ok s
  | h :: rest =>
    match Function.dtor s h with
    | .error e => .error e
    | .ok s1 => destroyAll s1 rest

/-- State after a `Function` bound to the live object `p` has given up its reference and its
slot has become `x`. -/
def unbound (s : State A R) (a p : Nat) (o : Invokable A R) (x : Option (Option Nat)) :
    State A R :=
  if o._ref_counter = 1 then ⟨s.heap.set p none, s.handles.set a x, p :: s.deleted⟩
  else ⟨s.heap.set p (some { o with
    _ref_counter := (o._ref_counter + SIZE_MAX) % (SIZE_MAX + 1) }), s.handles.set a x, s.deleted⟩

/-- State after `ms::Function<int()> f(one_hundred_ret_func);`. -/
def oneBound : State Unit Int :=
  ⟨[some ⟨1, one_hundred_ret_func⟩], [some (some 0)], []⟩

/-- State after `ms::Function<int()> f(one_hundred_ret_func); ms::Function<int()> g(f);`. -/
def twoSharing : State Unit Int :=
  ⟨[some ⟨2, one_hundred_ret_func⟩], [some (some 0), some (some 0)], []⟩

/-- State after `ms::Function<int()> f(one_hundred_ret_func);` and
`ms::Function<int()> g(two_hundred_ret_functor{});`. -/
def twoBound : State Unit Int :=
  ⟨[some ⟨1, one_hundred_ret_func⟩, some ⟨1, two_hundred_ret_functor⟩],
    [some (some 0), some (some 1)], []⟩

/-! ## Comparison with `nullptr` -/

/-- Free function `bool operator!=(const Function &f, std::nullptr_t)`: `return bool(f);`. -/
def Function.ne_nullptr (s : State A R) (f : Nat) : Except Undefined Bool :=
  Function.toBool s f

/-- Free function `bool operator==(const Function &f, std::nullptr_t)`:
`return !(f != nullptr);`. -/
def Function.eq_nullptr (s : State A R) (f : Nat) : Except Undefined Bool :=
  match Function.ne_nullptr s f with
  | .error e => .error e
  | .ok b => .ok (!b)

/-- Free function `bool operator!=(std::nullptr_t, const Function &f)`: `return bool(f);`. -/
def nullptr_ne (s : State A R) (f : Nat) : Except Undefined Bool :=
  Function.toBool s f

/-- Free function `bool operator==(std::nullptr_t, const Function &f)`:
`return !(f != nullptr);`. -/
def nullptr_eq (s : State A R) (f : Nat) : Except Undefined Bool :=
  match Function.ne_nullptr s f with
  | .error e => .error e
  | .ok b => .ok (!b)

/-! ## The callables of the test program that compute with `int` -/

/-- Smallest value of `int` (32-bit). -/
def INT_MIN : Int := -2147483648

/-- Largest value of `int` (32-bit). -/
def INT_MAX : Int := 2147483647

/-- Value of an `int` expression whose mathematical value is `x`: two's-complement
wrap-around into `INT_MIN .. INT_MAX`. -/
def wrapInt (x : Int) : Int :=
  (x + 2147483648) % 4294967296 - 2147483648

/-- Local `struct Functor { int operator()() { return i++; } int i = 0; }` of the
value-semantics test, as the object whose field `i` has the given value. -/
def Functor_i (i : Int) : Callable Unit Int :=
  ⟨Int, i, fun i _ => (i, wrapInt (i + 1))⟩

/-- Recursive free function `int sum_range_func(int num1, int num2)`; `none` is the failed
`assert(num1 <= num2)`.  The argument `num1 + 1` cannot overflow, since `num1 < num2`. -/
def sum_range_func (num1 num2 : Int) : Option Int :=
  if num1 ≤ num2 then
    if _h : num1 < num2 then
      match sum_range_func (num1 + 1) num2 with
      | none => none
      | some r => some (wrapInt (num1 + r))
    else some num2
  else none
termination_by (num2 - num1).toNat
decreasing_by omega

/-- The pointer to `sum_range_func` as a callable value of signature `int(int, int)`. -/
def sum_range_func_target : Callable (Int × Int) (Option Int) :=
  ⟨Unit, (), fun f args => (sum_range_func args.1 args.2, f)⟩

/-- Invoke the listed `Function` objects one after the other, each with its arguments, and
collect the outcomes. -/
def callSeq (s : State A R) :
    List (Nat × A) → Except Undefined (List (Except BadFunctionCall R) × State A R)
  | [] => .ok ([], s)
  | (f, args) :: rest =>
    match Function.call s f args with
    | .error e => .error e
    | .ok (r, s1) =>
      match callSeq s1 rest with
      | .error e => .error e
      | .ok (rs, s2) => .ok (r :: rs, s2)

/-- Sum of all integers from `a` to `b` inclusive. -/
def rangeSum (a b : Int) : Int :=
  Finset.sum (Finset.Icc a b) (fun i => i)

/-! ## Callables that invoke `Function` objects -/

/-- Body of a callable that uses `Function` objects while it runs: it returns a value, fails
an `assert`, or invokes the `Function` object `func` and goes on with the value returned. -/
inductive Body (A V : Type) where
  | ret (v : V)
  | abort
  | invoke (func : Nat) (args : A) (k : V → Body A V)

/-- Run a body in a state whose stored callables return bodies: an `invoke` runs
`Function::operator()` of the object and then the body that the stored callable returned.
`fuel` bounds the number of steps; `none` is a run that needs more steps, fails an `assert`,
throws or is undefined. -/
def exec {V : Type} : Nat → State A (Body A V) → Body A V → Option (V × State A (Body A V))
  | 0, _, _ => none
  | _ + 1, s, .ret v => some (v, s)
  | _ + 1, _, .abort => none
  | n + 1, s, .invoke func args k =>
    match Function.call s func args with
    | .ok (.ok body, s1) =>
      match exec n s1 body with
      | some (v, s2) => exec n s2 (k v)
      | none => none
    | _ => none

/-- The lambda `[&sum_range](int num2) -> int` of the test program, with `num1 = 25`; it
captures the `Function` object `sum_range` by reference. -/
def recursive_lambda (sum_range : Nat) : Callable Int (Body Int Int) :=
  ⟨Unit, (), fun capture num2 =>
    (if 25 ≤ num2 then
      if 25 = num2 then .ret num2
      else .invoke sum_range (wrapInt (num2 - 1)) (fun r => .ret (wrapInt (num2 + r)))
    else .abort, capture)⟩

/-- State after `Functor functor; ms::Function<int()> f_temp{functor};` of the
value-semantics test. -/
def oneCounter : State Unit Int :=
  ⟨[some ⟨1, Functor_i 0⟩], [some (some 0)], []⟩

/-! ## Effect of the primitive statements -/

theorem load_live (s : State A R) (p : Nat) (o : Invokable A R)
    (hp : s.heap[p]? = some (some o)) : s.load (some p) = .ok (p, o) := by
  simp [State.load, hp]

theorem readInvokable_alive (s : State A R) (h : Nat) (p : Option Nat)
    (hh : s.handles[h]? = some (some p)) : s.readInvokable h = .ok p := by
  simp [State.readInvokable, hh]

theorem lt_of_getElem?_eq_some {α : Type*} {l : List α} {i : Nat} {x : α}
    (h : l[i]? = some x) : i < l.length := by
  by_contra hn
  rw [List.getElem?_eq_none (by omega)] at h
  exact Option.noConfusion h

theorem ctor_value_eq (s : State A R) (c : Callable A R) :
    Function.ctor_value s c =
      .ok (⟨s.heap ++ [some ⟨1, c⟩], s.handles ++ [some (some s.heap.length)], s.deleted⟩,
        s.handles.length) := by
  simp [Function.ctor_value, State.declare, State.new, State.writeInvokable, State.incr,
    State.load, State.store, SIZE_MAX]

theorem call_bound (s : State A R) (h p : Nat) (o : Invokable A R) (a : A)
    (hh : s.handles[h]? = some (some (some p))) (hp : s.heap[p]? = some (some o)) :
    Function.call s h a = .ok (.ok (o.call a).1, s.store p (o.call a).2) := by
  simp [Function.call, readInvokable_alive s h _ hh, load_live s p o hp]

theorem call_empty (s : State A R) (h : Nat) (a : A)
    (hh : s.handles[h]? = some (some none)) :
    Function.call s h a = .ok (.error .mk, s) := by
  simp [Function.call, readInvokable_alive s h _ hh]

theorem ctor_copy_eq (s : State A R) (h p : Nat) (o : Invokable A R)
    (hh : s.handles[h]? = some (some (some p))) (hp : s.heap[p]? = some (some o)) :
    Function.ctor_copy s h =
      .ok (⟨s.heap.set p (some { o with _ref_counter := (o._ref_counter + 1) % (SIZE_MAX + 1) }),
          s.handles ++ [some (some p)], s.deleted⟩, s.handles.length) := by
  have hlt := lt_of_getElem?_eq_some hh
  simp [Function.ctor_copy, State.declare, State.readInvokable, State.writeInvokable,
    State.incr, State.load, State.store, List.getElem?_append_left hlt, hh, hp]

/-! ## Construction and invocation -/

/-- C1: a Function constructed from a callable `c` and then invoked with `a` returns exactly
the value the direct call `c(a)` returns; construction and invocation both succeed. -/
theorem ctor_value_call_forwards (s : State A R) (c : Callable A R) (a : A) :
    ∃ s1 f s2, Function.ctor_value s c = .ok (s1, f) ∧
      Function.call s1 f a = .ok (.ok (c.apply a).1, s2) := by
  exact ⟨_, _, _, ctor_value_eq s c,
    call_bound _ _ s.heap.length ⟨1, c⟩ a (by simp) (by simp)⟩

/-- C2: invoking an empty Function (in particular a default-constructed one) throws
`BadFunctionCall`, returns no value and leaves the whole state as it was; a bound Function
never yields `BadFunctionCall`, and returns the stored callable's result. -/
theorem call_empty_throws (s : State A R) (h : Nat) (a : A)
    (he : s.handles[h]? = some (some none)) :
    Function.call s h a = .ok (.error .mk, s) ∧
    Function.call (Function.ctor_default s).1 (Function.ctor_default s).2 a =
      .ok (.error .mk, (Function.ctor_default s).1) ∧
    (∀ g p, s.handles[g]? = some (some (some p)) →
      (∀ e s', Function.call s g a ≠ .ok (.error e, s')) ∧
      (∀ o, s.heap[p]? = some (some o) →
        ∃ s', Function.call s g a = .ok (.ok (o._function_type.apply a).1, s'))) := by
  refine ⟨call_empty s h a he, ?_, ?_⟩
  · exact call_empty _ _ a (by simp [Function.ctor_default, State.declare])
  · intro g p hg
    refine ⟨?_, ?_⟩
    · intro e s' hcall
      simp only [Function.call, readInvokable_alive s g _ hg] at hcall
      cases hl : s.load (some p) with
      | error u => simp [hl] at hcall
      | ok x => simp [hl] at hcall
    · intro o hp
      exact ⟨_, call_bound s g p o a hg hp⟩

/-- Witness of C2: the state holding one default-constructed and one bound Function. -/
theorem call_empty_throws_witness :
    (Function.ctor_default oneBound).1.handles[1]? = some (some none) ∧
    Function.call (Function.ctor_default oneBound).1 1 () =
      .ok (.error .mk, (Function.ctor_default oneBound).1) ∧
    ∀ e s1, Function.call (Function.ctor_default oneBound).1 0 () ≠ .ok (.error e, s1) :=
  ⟨rfl, (call_empty_throws (Function.ctor_default oneBound).1 1 () rfl).1,
    ((call_empty_throws (Function.ctor_default oneBound).1 1 () rfl).2.2 0 0 rfl).1⟩

/-- C3: copy construction from a default-constructed (empty) Function dereferences the null
`_invokable` in `++(_invokable->_ref_counter)`: the behaviour is undefined, no empty copy is
produced. -/
theorem ctor_copy_of_empty_undefined :
    Function.ctor_copy (Function.ctor_default (State.empty : State Unit Int)).1
      (Function.ctor_default (State.empty : State Unit Int)).2 = .error .nullDeref := rfl

/-- C4: copy construction from a Function bound to the live object `p` succeeds; the new
Function references `p`, the counter of `p` is one more than before (its stored callable is
the same), no object is created, released or otherwise changed, and the source Function and
all other Functions keep their binding. -/
theorem ctor_copy_shares (s : State A R) (h p : Nat) (o : Invokable A R)
    (hh : s.handles[h]? = some (some (some p))) (hp : s.heap[p]? = some (some o))
    (hc : o._ref_counter < SIZE_MAX) :
    ∃ s' f, Function.ctor_copy s h = .ok (s', f) ∧
      f = s.handles.length ∧
      s'.handles[f]? = some (some (some p)) ∧
      s'.heap[p]? = some (some { o with _ref_counter := o._ref_counter + 1 }) ∧
      s'.heap.length = s.heap.length ∧
      (∀ q, q ≠ p → s'.heap[q]? = s.heap[q]?) ∧
      s'.deleted = s.deleted ∧
      s'.handles[h]? = some (some (some p)) ∧
      (∀ g, g < s.handles.length → s'.handles[g]? = s.handles[g]?) := by
  have hlt := lt_of_getElem?_eq_some hh
  have hpl := lt_of_getElem?_eq_some hp
  have hmod : (o._ref_counter + 1) % (SIZE_MAX + 1) = o._ref_counter + 1 :=
    Nat.mod_eq_of_lt (by omega)
  refine ⟨_, _, ctor_copy_eq s h p o hh hp, rfl, ?_, ?_, ?_, ?_, rfl, ?_, ?_⟩
  · simp
  · simp [hpl, hmod]
  · simp
  · intro q hq
    simp [List.getElem?_set_ne (Ne.symm hq)]
  · simp [List.getElem?_append_left hlt, hh]
  · intro g hg
    simp [List.getElem?_append_left hg]

/-- Witness of C4: copying the Function built from `one_hundred_ret_func`. -/
theorem ctor_copy_shares_witness :
    oneBound.handles[0]? = some (some (some 0)) ∧
    oneBound.heap[0]? = some (some ⟨1, one_hundred_ret_func⟩) ∧ 1 < SIZE_MAX ∧
    ∃ s1 f, Function.ctor_copy oneBound 0 = .ok (s1, f) ∧ f = 1 ∧
      s1.handles[f]? = some (some (some 0)) ∧
      s1.heap[0]? = some (some ⟨2, one_hundred_ret_func⟩) ∧
      s1.heap.length = 1 ∧
      (∀ q, q ≠ 0 → s1.heap[q]? = oneBound.heap[q]?) ∧
      s1.deleted = [] ∧
      s1.handles[0]? = some (some (some 0)) ∧
      (∀ g, g < 1 → s1.handles[g]? = oneBound.handles[g]?) :=
  ⟨rfl, rfl, by decide,
    ctor_copy_shares oneBound 0 0 ⟨1, one_hundred_ret_func⟩ rfl rfl (by decide)⟩

/-- C10: self-assignment `a = a` returns at once: the state after it is the state before it
(bindings, counters, live objects and the release log alike). -/
theorem assign_self_noop (s : State A R) (a : Nat) : Function.assign s a a = .ok s := by
  simp [Function.assign]

/-! ## Counting in lists -/

theorem countP_set_of_getElem? {α : Type*} (f : α → Bool) :
    ∀ (l : List α) (i : Nat) (x y : α), l[i]? = some x →
      (l.set i y).countP f + (if f x then 1 else 0) = l.countP f + (if f y then 1 else 0) := by
  intro l
  induction l with
  | nil => intro i x y h; simp at h
  | cons z l ih =>
    intro i x y h
    cases i with
    | zero =>
      simp at h
      subst h
      simp [List.countP_cons]
      omega
    | succ i =>
      simp at h
      have := ih i x y h
      simp [List.countP_cons]
      omega

theorem countP_le_countP_isSome (l : List (Option (Option Nat))) (p : Nat) :
    l.countP (fun x => decide (x = some (some p))) ≤ l.countP Option.isSome := by
  apply List.countP_mono_left
  intro x _ hx
  simp at hx
  simp [hx]

theorem countP_pos_of_getElem? {α : Type*} (f : α → Bool) (l : List α) (i : Nat) (x : α)
    (h : l[i]? = some x) (hf : f x = true) : 1 ≤ l.countP f :=
  List.countP_pos_iff.mpr ⟨x, List.getElem?_mem h, hf⟩

/-! ## Counting in states -/

theorem refs_set (s : State A R) (a q : Nat) (x : Option (Option Nat)) (hp : List (Option (Invokable A R)))
    (d : List Nat) (y : Option (Option Nat)) (ha : s.handles[a]? = some y) :
    State.refs (⟨hp, s.handles.set a x, d⟩ : State A R) q + (if y = some (some q) then 1 else 0)
      = s.refs q + (if x = some (some q) then 1 else 0) := by
  simpa [State.refs] using
    countP_set_of_getElem? (fun z => decide (z = some (some q))) s.handles a y x ha

theorem live_set (s : State A R) (a : Nat) (x : Option (Option Nat)) (hp : List (Option (Invokable A R)))
    (d : List Nat) (y : Option (Option Nat)) (ha : s.handles[a]? = some y) :
    State.liveHandles (⟨hp, s.handles.set a x, d⟩ : State A R) + (if y.isSome then 1 else 0)
      = s.liveHandles + (if x.isSome then 1 else 0) := by
  simpa [State.liveHandles] using countP_set_of_getElem? Option.isSome s.handles a y x ha

theorem refs_le_live (s : State A R) (p : Nat) : s.refs p ≤ s.liveHandles :=
  countP_le_countP_isSome s.handles p

theorem refs_pos (s : State A R) (a p : Nat) (ha : s.handles[a]? = some (some (some p))) :
    1 ≤ s.refs p :=
  countP_pos_of_getElem? _ s.handles a _ ha (by simp)

theorem decr_mod (c : Nat) (h1 : 1 ≤ c) (h2 : c ≤ SIZE_MAX) :
    (c + SIZE_MAX) % (SIZE_MAX + 1) = c - 1 := by
  have : c + SIZE_MAX = (c - 1) + (SIZE_MAX + 1) := by omega
  rw [this, Nat.add_mod_right]
  exact Nat.mod_eq_of_lt (by omega)

/-! ## Effect of the release block -/

theorem release_last (s : State A R) (p : Nat) (o : Invokable A R)
    (hp : s.heap[p]? = some (some o)) (hc : o._ref_counter = 1) :
    s.release (some p) = .ok ⟨s.heap.set p none, s.handles, p :: s.deleted⟩ := by
  simp [State.release, State.delete, load_live s p o hp, hc]

theorem release_shared (s : State A R) (p : Nat) (o : Invokable A R)
    (hp : s.heap[p]? = some (some o)) (hc : o._ref_counter ≠ 1) :
    s.release (some p) =
      .ok ⟨s.heap.set p (some { o with
        _ref_counter := (o._ref_counter + SIZE_MAX) % (SIZE_MAX + 1) }), s.handles, s.deleted⟩ := by
  simp [State.release, State.decr, State.store, load_live s p o hp, hc]

theorem dtor_bound (s : State A R) (a p : Nat) (o : Invokable A R)
    (ha : s.handles[a]? = some (some (some p))) (hp : s.heap[p]? = some (some o)) :
    Function.dtor s a = .ok (unbound s a p o none) := by
  by_cases hc : o._ref_counter = 1
  · simp [Function.dtor, readInvokable_alive s a _ ha, release_last s p o hp hc, unbound, hc,
      State.endLifetime]
  · simp [Function.dtor, readInvokable_alive s a _ ha, release_shared s p o hp hc, unbound, hc,
      State.endLifetime]

theorem dtor_empty (s : State A R) (a : Nat) (ha : s.handles[a]? = some (some none)) :
    Function.dtor s a = .ok ⟨s.heap, s.handles.set a none, s.deleted⟩ := by
  simp [Function.dtor, readInvokable_alive s a _ ha, State.endLifetime]

theorem drop_bound (s : State A R) (a p : Nat) (o : Invokable A R)
    (ha : s.handles[a]? = some (some (some p))) (hp : s.heap[p]? = some (some o)) :
    Function.drop s a = .ok (unbound s a p o (some none)) := by
  by_cases hc : o._ref_counter = 1
  · simp [Function.drop, readInvokable_alive s a _ ha, release_last s p o hp hc, unbound, hc,
      State.writeInvokable]
  · simp [Function.drop, readInvokable_alive s a _ ha, release_shared s p o hp hc, unbound, hc,
      State.writeInvokable]

theorem drop_empty (s : State A R) (a : Nat) (ha : s.handles[a]? = some (some none)) :
    Function.drop s a = .ok s := by
  simp [Function.drop, readInvokable_alive s a _ ha]

theorem inv_unbound (s : State A R) (a p : Nat) (o : Invokable A R) (x : Option (Option Nat))
    (hinv : s.Inv) (ha : s.handles[a]? = some (some (some p)))
    (hp : s.heap[p]? = some (some o)) (hx : ∀ q, x ≠ some (some q)) :
    (unbound s a p o x).Inv := by
  have hal := lt_of_getElem?_eq_some ha
  have hpl := lt_of_getElem?_eq_some hp
  obtain ⟨hcnt, hpos⟩ := hinv.counted p o hp
  have hle : s.refs p ≤ SIZE_MAX := le_trans (refs_le_live s p) hinv.fits
  have hrefs : ∀ (hp2 : List (Option (Invokable A R))) (d : List Nat) (q : Nat),
      State.refs (⟨hp2, s.handles.set a x, d⟩ : State A R) q
        = if q = p then s.refs p - 1 else s.refs q := by
    intro hp2 d q
    have h := refs_set s a q x hp2 d _ ha
    simp only [hx q, if_false, Nat.add_zero] at h
    by_cases hq : q = p
    · subst hq; simp at h; simp; omega
    · have : ¬ (some (some (some p)) : Option (Option (Option Nat))) = some (some (some q)) := by
        simp; exact fun e => hq e.symm
      simp [hq] at h ⊢
      have h2 : ¬ p = q := fun e => hq e.symm
      simp [h2] at h
      exact h
  have hlive : ∀ (hp2 : List (Option (Invokable A R))) (d : List Nat),
      State.liveHandles (⟨hp2, s.handles.set a x, d⟩ : State A R) ≤ s.liveHandles := by
    intro hp2 d
    have h := live_set s a x hp2 d _ ha
    simp at h
    split_ifs at h <;> omega
  have hbound : ∀ b q, (s.handles.set a x)[b]? = some (some (some q)) →
      s.handles[b]? = some (some (some q)) ∧ b ≠ a := by
    intro b q hb
    rw [List.getElem?_set] at hb
    by_cases hba : a = b
    · simp [hba] at hb
      exact absurd hb.2 (by simpa using hx q)
    · simp [hba] at hb
      exact ⟨hb, fun e => hba e.symm⟩
  unfold unbound
  by_cases hc : o._ref_counter = 1
  · simp only [hc, if_true]
    refine ⟨?_, ?_, le_trans (hlive _ _) hinv.fits⟩
    · intro b q hb
      obtain ⟨hb1, _⟩ := hbound b q hb
      have hqp : q ≠ p := by
        intro e
        subst e
        have h1 := refs_pos (⟨s.heap.set q none, s.handles.set a x, q :: s.deleted⟩ : State A R) b q hb
        rw [hrefs] at h1
        simp at h1
        omega
      obtain ⟨o2, ho2⟩ := hinv.bound_live b q hb1
      exact ⟨o2, by simpa [List.getElem?_set_ne (Ne.symm hqp)] using ho2⟩
    · intro q o2 hq
      have hqp : q ≠ p := by
        intro e
        subst e
        simp [List.getElem?_set, hpl] at hq
      have hq1 : s.heap[q]? = some (some o2) := by
        simpa [List.getElem?_set_ne (Ne.symm hqp)] using hq
      rw [hrefs]
      simpa [hqp] using hinv.counted q o2 hq1
  · simp only [hc, if_false]
    have hmod := decr_mod o._ref_counter (by omega) (by omega)
    refine ⟨?_, ?_, le_trans (hlive _ _) hinv.fits⟩
    · intro b q hb
      obtain ⟨hb1, _⟩ := hbound b q hb
      by_cases hqp : q = p
      · subst hqp
        simp [List.getElem?_set, hpl]
      · obtain ⟨o2, ho2⟩ := hinv.bound_live b q hb1
        exact ⟨o2, by simpa [List.getElem?_set_ne (Ne.symm hqp)] using ho2⟩
    · intro q o2 hq
      rw [hrefs]
      by_cases hqp : q = p
      · subst hqp
        simp [List.getElem?_set, hpl] at hq
        subst hq
        simp [hmod]
        omega
      · have hq1 : s.heap[q]? = some (some o2) := by
          simpa [List.getElem?_set_ne (Ne.symm hqp)] using hq
        simpa [hqp] using hinv.counted q o2 hq1

/-! ## Effect of binding a `Function` -/

theorem acquire_eq (s : State A R) (a q : Nat) (o : Invokable A R)
    (hq : s.heap[q]? = some (some o)) :
    (s.writeInvokable a (some q)).incr (some q) =
      .ok ⟨s.heap.set q (some { o with _ref_counter := (o._ref_counter + 1) % (SIZE_MAX + 1) }),
        s.handles.set a (some (some q)), s.deleted⟩ := by
  simp [State.writeInvokable, State.incr, State.load, State.store, hq]

theorem acquire_new_eq (s : State A R) (a : Nat) (c : Callable A R) :
    ((s.new c).1.writeInvokable a (some s.heap.length)).incr (some s.heap.length) =
      .ok ⟨s.heap ++ [some ⟨1, c⟩], s.handles.set a (some (some s.heap.length)), s.deleted⟩ := by
  simp [State.new, State.writeInvokable, State.incr, State.load, State.store, SIZE_MAX]

theorem inv_acquire (s : State A R) (a q : Nat) (o : Invokable A R) (hinv : s.Inv)
    (ha : s.handles[a]? = some (some none)) (hq : s.heap[q]? = some (some o)) :
    (o._ref_counter + 1) % (SIZE_MAX + 1) = o._ref_counter + 1 ∧
    State.Inv (⟨s.heap.set q (some { o with _ref_counter := o._ref_counter + 1 }),
      s.handles.set a (some (some q)), s.deleted⟩ : State A R) := by
  have hql := lt_of_getElem?_eq_some hq
  obtain ⟨hcnt, hpos⟩ := hinv.counted q o hq
  have hrefs : ∀ (hp2 : List (Option (Invokable A R))) (d : List Nat) (r : Nat),
      State.refs (⟨hp2, s.handles.set a (some (some q)), d⟩ : State A R) r
        = if r = q then s.refs q + 1 else s.refs r := by
    intro hp2 d r
    have h := refs_set s a r (some (some q)) hp2 d _ ha
    by_cases hr : r = q
    · subst hr; simp at h; simp [h]
    · have h2 : ¬ q = r := fun e => hr e.symm
      simp [h2] at h
      simp [hr, h]
  have hlive : ∀ (hp2 : List (Option (Invokable A R))) (d : List Nat),
      State.liveHandles (⟨hp2, s.handles.set a (some (some q)), d⟩ : State A R)
        = s.liveHandles := by
    intro hp2 d
    have h := live_set s a (some (some q)) hp2 d _ ha
    simpa using h
  have hroom : s.refs q + 1 ≤ SIZE_MAX := by
    have h1 := refs_le_live (⟨s.heap, s.handles.set a (some (some q)), s.deleted⟩ : State A R) q
    rw [hrefs, hlive] at h1
    simp at h1
    exact le_trans h1 hinv.fits
  refine ⟨Nat.mod_eq_of_lt (by omega), ?_, ?_, ?_⟩
  · intro b r hb
    by_cases hrq : r = q
    · subst hrq
      simp [List.getElem?_set, hql]
    · have hb1 : s.handles[b]? = some (some (some r)) := by
        simp only [List.getElem?_set] at hb
        by_cases hba : a = b
        · simp [hba] at hb
          exact absurd hb.2.symm hrq
        · simpa [hba] using hb
      obtain ⟨o2, ho2⟩ := hinv.bound_live b r hb1
      exact ⟨o2, by simpa [List.getElem?_set_ne (Ne.symm hrq)] using ho2⟩
  · intro r o2 hr
    rw [hrefs]
    by_cases hrq : r = q
    · subst hrq
      simp [List.getElem?_set, hql] at hr
      subst hr
      simp
      omega
    · have hr1 : s.heap[r]? = some (some o2) := by
        simpa [List.getElem?_set_ne (Ne.symm hrq)] using hr
      simpa [hrq] using hinv.counted r o2 hr1
  · rw [hlive]; exact hinv.fits

theorem refs_fresh (s : State A R) (hinv : s.Inv) : s.refs s.heap.length = 0 := by
  unfold State.refs
  rw [List.countP_eq_zero]
  intro x hx
  simp only [decide_eq_true_eq]
  intro e
  subst e
  obtain ⟨n, hn⟩ := List.mem_iff_getElem?.mp hx
  obtain ⟨o, ho⟩ := hinv.bound_live n _ hn
  have := lt_of_getElem?_eq_some ho
  omega

theorem inv_acquire_new (s : State A R) (a : Nat) (c : Callable A R) (hinv : s.Inv)
    (ha : s.handles[a]? = some (some none)) :
    State.Inv (⟨s.heap ++ [some ⟨1, c⟩], s.handles.set a (some (some s.heap.length)),
      s.deleted⟩ : State A R) := by
  have hrefs : ∀ (hp2 : List (Option (Invokable A R))) (d : List Nat) (r : Nat),
      State.refs (⟨hp2, s.handles.set a (some (some s.heap.length)), d⟩ : State A R) r
        = if r = s.heap.length then 1 else s.refs r := by
    intro hp2 d r
    have h := refs_set s a r (some (some s.heap.length)) hp2 d _ ha
    by_cases hr : r = s.heap.length
    · subst hr; simp [refs_fresh s hinv] at h; simp [h]
    · have h2 : ¬ s.heap.length = r := fun e => hr e.symm
      simp [h2] at h
      simp [hr, h]
  have hlive : ∀ (hp2 : List (Option (Invokable A R))) (d : List Nat),
      State.liveHandles (⟨hp2, s.handles.set a (some (some s.heap.length)), d⟩ : State A R)
        = s.liveHandles := by
    intro hp2 d
    have h := live_set s a (some (some s.heap.length)) hp2 d _ ha
    simpa using h
  refine ⟨?_, ?_, ?_⟩
  · intro b r hb
    by_cases hrq : r = s.heap.length
    · subst hrq
      simp
    · have hb1 : s.handles[b]? = some (some (some r)) := by
        simp only [List.getElem?_set] at hb
        by_cases hba : a = b
        · simp [hba] at hb
          exact absurd hb.2.symm hrq
        · simpa [hba] using hb
      obtain ⟨o2, ho2⟩ := hinv.bound_live b r hb1
      have hrl := lt_of_getElem?_eq_some ho2
      exact ⟨o2, by simpa [List.getElem?_append_left hrl] using ho2⟩
  · intro r o2 hr
    rw [hrefs]
    have hrl := lt_of_getElem?_eq_some hr
    simp at hrl
    by_cases hrq : r = s.heap.length
    · subst hrq
      simp at hr
      subst hr
      simp
    · have hlt : r < s.heap.length := by omega
      have hr1 : s.heap[r]? = some (some o2) := by
        simpa [List.getElem?_append_left hlt] using hr
      simpa [hrq] using hinv.counted r o2 hr1
  · rw [hlive]; exact hinv.fits

theorem inv_declare (s : State A R) (hinv : s.Inv) (hroom : s.liveHandles < SIZE_MAX) :
    (s.declare).1.Inv ∧ (s.declare).1.handles[(s.declare).2]? = some (some none) := by
  refine ⟨⟨?_, ?_, ?_⟩, by simp [State.declare]⟩
  · intro b r hb
    simp only [State.declare] at hb
    have hbl := lt_of_getElem?_eq_some hb
    simp at hbl
    by_cases hlt : b < s.handles.length
    · rw [List.getElem?_append_left hlt] at hb
      exact hinv.bound_live b r hb
    · have : b = s.handles.length := by omega
      subst this
      simp at hb
  · intro r o hr
    have : (s.declare).1.refs r = s.refs r := by
      simp [State.declare, State.refs, List.countP_append]
    rw [this]
    exact hinv.counted r o hr
  · have : (s.declare).1.liveHandles = s.liveHandles + 1 := by
      simp [State.declare, State.liveHandles, List.countP_append]
    omega

theorem inv_store (s : State A R) (p : Nat) (o o2 : Invokable A R) (hinv : s.Inv)
    (hp : s.heap[p]? = some (some o)) (hc : o2._ref_counter = o._ref_counter) :
    (s.store p o2).Inv := by
  have hpl := lt_of_getElem?_eq_some hp
  refine ⟨?_, ?_, hinv.fits⟩
  · intro b r hb
    obtain ⟨o3, ho3⟩ := hinv.bound_live b r hb
    by_cases hrp : r = p
    · subst hrp
      simp [State.store, List.getElem?_set, hpl]
    · exact ⟨o3, by simpa [State.store, List.getElem?_set_ne (Ne.symm hrp)] using ho3⟩
  · intro r o3 hr
    have href : (s.store p o2).refs r = s.refs r := rfl
    rw [href]
    by_cases hrp : r = p
    · subst hrp
      simp [State.store, List.getElem?_set, hpl] at hr
      subst hr
      rw [hc]
      exact hinv.counted r o hp
    · have hr1 : s.heap[r]? = some (some o3) := by
        simpa [State.store, List.getElem?_set_ne (Ne.symm hrp)] using hr
      exact hinv.counted r o3 hr1

/-! ## Every public operation preserves the counting invariant -/

theorem unbound_handles (s : State A R) (a p : Nat) (o : Invokable A R)
    (x : Option (Option Nat)) : (unbound s a p o x).handles = s.handles.set a x := by
  unfold unbound
  split <;> rfl

theorem set_length_append_singleton {α : Type*} (l : List α) (x y : α) :
    (l ++ [x]).set l.length y = l ++ [y] := by
  induction l with
  | nil => rfl
  | cons z l ih => simp [ih]

theorem inv_drop (s s1 : State A R) (a : Nat) (hinv : s.Inv)
    (h : Function.drop s a = .ok s1) :
    s1.Inv ∧ s1.handles[a]? = some (some none) ∧
      ∀ b, b ≠ a → s1.handles[b]? = s.handles[b]? := by
  rcases hh : s.handles[a]? with _ | _ | _ | p
  · simp [Function.drop, State.readInvokable, hh] at h
  · simp [Function.drop, State.readInvokable, hh] at h
  · rw [drop_empty s a hh] at h
    cases h
    exact ⟨hinv, hh, fun _ _ => rfl⟩
  · obtain ⟨o, ho⟩ := hinv.bound_live a p hh
    rw [drop_bound s a p o hh ho] at h
    cases h
    have hal := lt_of_getElem?_eq_some hh
    refine ⟨inv_unbound s a p o _ hinv hh ho (by simp), ?_, ?_⟩
    · simp [unbound_handles, hal]
    · intro b hb
      simp [unbound_handles, List.getElem?_set_ne (Ne.symm hb)]

theorem inv_dtor (s s1 : State A R) (a : Nat) (hinv : s.Inv)
    (h : Function.dtor s a = .ok s1) : s1.Inv := by
  rcases hh : s.handles[a]? with _ | _ | _ | p
  · simp [Function.dtor, State.readInvokable, hh] at h
  · simp [Function.dtor, State.readInvokable, hh] at h
  · rw [dtor_empty s a hh] at h
    cases h
    refine ⟨?_, ?_, ?_⟩
    · intro b r hb
      have hb1 : s.handles[b]? = some (some (some r)) := by
        simp only [List.getElem?_set] at hb
        by_cases hba : a = b
        · simp [hba] at hb
        · simpa [hba] using hb
      exact hinv.bound_live b r hb1
    · intro r o hr
      have h2 := refs_set s a r none s.heap s.deleted _ hh
      simp at h2
      rw [h2]
      exact hinv.counted r o hr
    · have h2 := live_set s a none s.heap s.deleted _ hh
      simp at h2
      have := hinv.fits
      omega
  · obtain ⟨o, ho⟩ := hinv.bound_live a p hh
    rw [dtor_bound s a p o hh ho] at h
    cases h
    exact inv_unbound s a p o _ hinv hh ho (by simp)

theorem inv_assign (s s1 : State A R) (a b : Nat) (hinv : s.Inv)
    (h : Function.assign s a b = .ok s1) : s1.Inv := by
  unfold Function.assign at h
  by_cases hab : a = b
  · simp [hab] at h
    cases h
    exact hinv
  · simp only [hab, if_false] at h
    cases hd : Function.drop s a with
    | error e => simp [hd] at h
    | ok s2 =>
      simp only [hd] at h
      obtain ⟨hinv2, ha2, _⟩ := inv_drop s s2 a hinv hd
      rcases hh : s2.handles[b]? with _ | _ | _ | q
      · simp [State.readInvokable, hh] at h
      · simp [State.readInvokable, hh] at h
      · simp [State.readInvokable, hh] at h
        cases h
        exact hinv2
      · obtain ⟨o, ho⟩ := hinv2.bound_live b q hh
        simp only [readInvokable_alive s2 b _ hh, acquire_eq s2 a q o ho] at h
        obtain ⟨hmod, hinv3⟩ := inv_acquire s2 a q o hinv2 ha2 ho
        rw [hmod] at h
        cases h
        exact hinv3

theorem inv_assign_value (s s1 : State A R) (a : Nat) (c : Callable A R) (hinv : s.Inv)
    (h : Function.assign_value s a c = .ok s1) : s1.Inv := by
  unfold Function.assign_value at h
  cases hd : Function.drop s a with
  | error e => simp [hd] at h
  | ok s2 =>
    simp only [hd] at h
    obtain ⟨hinv2, ha2, _⟩ := inv_drop s s2 a hinv hd
    have h2 := acquire_new_eq s2 a c
    simp only [State.new] at h2 h
    rw [h2] at h
    cases h
    exact inv_acquire_new s2 a c hinv2 ha2

theorem inv_ctor_value (s s1 : State A R) (c : Callable A R) (f : Nat) (hinv : s.Inv)
    (hroom : s.liveHandles < SIZE_MAX) (h : Function.ctor_value s c = .ok (s1, f)) :
    s1.Inv := by
  rw [ctor_value_eq] at h
  cases h
  obtain ⟨hinv2, ha2⟩ := inv_declare s hinv hroom
  have := inv_acquire_new _ _ c hinv2 ha2
  simpa [State.declare, set_length_append_singleton] using this

theorem ctor_copy_ok_bound (s s1 : State A R) (b f : Nat)
    (h : Function.ctor_copy s b = .ok (s1, f)) :
    ∃ q, s.handles[b]? = some (some (some q)) := by
  by_cases hlt : b < s.handles.length
  · rcases hh : s.handles[b]? with _ | _ | _ | q
    · simp [Function.ctor_copy, State.declare, State.readInvokable,
        List.getElem?_append_left hlt, hh] at h
    · simp [Function.ctor_copy, State.declare, State.readInvokable,
        List.getElem?_append_left hlt, hh] at h
    · simp [Function.ctor_copy, State.declare, State.readInvokable,
        List.getElem?_append_left hlt, hh, State.incr, State.load, State.writeInvokable] at h
    · exact ⟨q, rfl⟩
  · by_cases heq : b = s.handles.length
    · subst heq
      simp [Function.ctor_copy, State.declare, State.readInvokable, State.incr, State.load,
        State.writeInvokable] at h
    · have hge : s.handles.length + 1 ≤ b := by omega
      have hnone : (s.handles ++ [some none])[b]? = none :=
        List.getElem?_eq_none (by simpa using hge)
      simp [Function.ctor_copy, State.declare, State.readInvokable, hnone] at h

theorem inv_ctor_copy (s s1 : State A R) (b f : Nat) (hinv : s.Inv)
    (hroom : s.liveHandles < SIZE_MAX) (h : Function.ctor_copy s b = .ok (s1, f)) :
    s1.Inv := by
  obtain ⟨q, hh⟩ := ctor_copy_ok_bound s s1 b f h
  obtain ⟨o, ho⟩ := hinv.bound_live b q hh
  rw [ctor_copy_eq s b q o hh ho] at h
  cases h
  obtain ⟨hinv2, ha2⟩ := inv_declare s hinv hroom
  have ho2 : (s.declare).1.heap[q]? = some (some o) := ho
  obtain ⟨hmod, hinv3⟩ := inv_acquire _ _ q o hinv2 ha2 ho2
  rw [hmod]
  simpa [State.declare, set_length_append_singleton] using hinv3

theorem inv_call (s s1 : State A R) (a : Nat) (args : A) (r : Except BadFunctionCall R)
    (hinv : s.Inv) (h : Function.call s a args = .ok (r, s1)) : s1.Inv := by
  rcases hh : s.handles[a]? with _ | _ | _ | p
  · simp [Function.call, State.readInvokable, hh] at h
  · simp [Function.call, State.readInvokable, hh] at h
  · rw [call_empty s a args hh] at h
    cases h
    exact hinv
  · obtain ⟨o, ho⟩ := hinv.bound_live a p hh
    rw [call_bound s a p o args hh ho] at h
    cases h
    exact inv_store s p o _ hinv ho rfl

theorem inv_empty : (State.empty : State A R).Inv := by
  refine ⟨?_, ?_, ?_⟩
  · intro a p h; simp [State.empty] at h
  · intro p o h; simp [State.empty] at h
  · simp [State.empty, State.liveHandles]

theorem inv_run (s s1 : State A R) (op : Op A R) (hinv : s.Inv)
    (hroom : op.constructs = true → s.liveHandles < SIZE_MAX) (h : op.run s = .ok s1) :
    s1.Inv := by
  cases op with
  | ctor_default =>
    simp only [Op.run, Function.ctor_default] at h
    cases h
    exact (inv_declare s hinv (hroom rfl)).1
  | ctor_value c =>
    simp only [Op.run] at h
    cases hc : Function.ctor_value s c with
    | error e => simp [hc] at h
    | ok x =>
      obtain ⟨s2, f⟩ := x
      simp [hc] at h
      subst h
      exact inv_ctor_value s s2 c f hinv (hroom rfl) hc
  | ctor_copy b =>
    simp only [Op.run] at h
    cases hc : Function.ctor_copy s b with
    | error e => simp [hc] at h
    | ok x =>
      obtain ⟨s2, f⟩ := x
      simp [hc] at h
      subst h
      exact inv_ctor_copy s s2 b f hinv (hroom rfl) hc
  | assign a b => exact inv_assign s s1 a b hinv h
  | assign_value a c => exact inv_assign_value s s1 a c hinv h
  | call a args =>
    simp only [Op.run] at h
    cases hc : Function.call s a args with
    | error e => simp [hc] at h
    | ok x =>
      obtain ⟨r, s2⟩ := x
      simp [hc] at h
      subst h
      exact inv_call s s2 a args r hinv hc
  | dtor a => exact inv_dtor s s1 a hinv h

theorem reachable_inv (s : State A R) (h : Reachable s) : s.Inv := by
  induction h with
  | init => exact inv_empty
  | step s s1 op _ hroom hrun ih => exact inv_run s s1 op ih hroom hrun

/-! ## Invariant I1 -/

/-- C7: in every state reachable from the empty state through the public operations, every
bound Function points to an object that is still live (not deleted) and whose reference
counter is at least 1. -/
theorem reachable_bound_counter_pos (s : State A R) (hs : Reachable s) (a p : Nat)
    (ha : s.handles[a]? = some (some (some p))) :
    ∃ o, s.heap[p]? = some (some o) ∧ 1 ≤ o._ref_counter := by
  have hinv := reachable_inv s hs
  obtain ⟨o, ho⟩ := hinv.bound_live a p ha
  exact ⟨o, ho, by rw [(hinv.counted p o ho).1]; exact (hinv.counted p o ho).2⟩

/-- Witness of C7: the state after `ms::Function<int()> f(one_hundred_ret_func);`. -/
theorem reachable_bound_counter_pos_witness :
    Reachable oneBound ∧ oneBound.handles[0]? = some (some (some 0)) ∧
    ∃ o, oneBound.heap[0]? = some (some o) ∧ 1 ≤ o._ref_counter :=
  ⟨Reachable.step State.empty _ (Op.ctor_value one_hundred_ret_func) Reachable.init
      (fun _ => by decide) rfl, rfl,
    reachable_bound_counter_pos oneBound
      (Reachable.step State.empty _ (Op.ctor_value one_hundred_ret_func) Reachable.init
        (fun _ => by decide) rfl) 0 0 rfl⟩

/-! ## Copies and destruction in any order -/

theorem copies_eq (h p : Nat) : ∀ (N : Nat) (s : State A R) (o : Invokable A R),
    s.handles[h]? = some (some (some p)) → s.heap[p]? = some (some o) →
    o._ref_counter + N ≤ SIZE_MAX →
    ∃ s1, copies s h N = .ok s1 ∧
      s1.handles = s.handles ++ List.replicate N (some (some p)) ∧
      s1.heap[p]? = some (some { o with _ref_counter := o._ref_counter + N }) ∧
      s1.deleted = s.deleted := by
  intro N
  induction N with
  | zero =>
    intro s o _ hp _
    exact ⟨s, rfl, by simp, by simpa using hp, rfl⟩
  | succ N ih =>
    intro s o hh hp hN
    have hlt := lt_of_getElem?_eq_some hh
    have hpl := lt_of_getElem?_eq_some hp
    have hmod : (o._ref_counter + 1) % (SIZE_MAX + 1) = o._ref_counter + 1 :=
      Nat.mod_eq_of_lt (by omega)
    obtain ⟨s1, h1, h2, h3, h4⟩ := ih
      (⟨s.heap.set p (some { o with _ref_counter := o._ref_counter + 1 }),
        s.handles ++ [some (some p)], s.deleted⟩ : State A R)
      { o with _ref_counter := o._ref_counter + 1 }
      (by simp [List.getElem?_append_left hlt, hh]) (by simp [hpl]) (by simp; omega)
    refine ⟨s1, ?_, ?_, ?_, h4⟩
    · simp only [copies, ctor_copy_eq s h p o hh hp, hmod]
      exact h1
    · rw [h2]
      simp [List.replicate_succ]
    · rw [h3]
      simp
      omega

theorem destroyAll_eq (p : Nat) : ∀ (L : List Nat) (t : State A R) (o : Invokable A R),
    L.Nodup → (∀ g ∈ L, t.handles[g]? = some (some (some p))) →
    t.heap[p]? = some (some o) → o._ref_counter = L.length → L.length ≤ SIZE_MAX → L ≠ [] →
    (∀ k, k < L.length → ∃ sk o2, destroyAll t (L.take k) = .ok sk ∧
        sk.heap[p]? = some (some o2) ∧ sk.deleted = t.deleted) ∧
    ∃ s2, destroyAll t L = .ok s2 ∧ s2.heap[p]? = some none ∧ s2.deleted = p :: t.deleted := by
  intro L
  induction L with
  | nil => intro t o _ _ _ _ _ hne; exact absurd rfl hne
  | cons g rest ih =>
    intro t o hnd hall hp hc hlen _
    have hg := hall g (List.mem_cons_self g rest)
    have hpl := lt_of_getElem?_eq_some hp
    have hd := dtor_bound t g p o hg hp
    by_cases hrest : rest = []
    · subst hrest
      have hc1 : o._ref_counter = 1 := by simpa using hc
      refine ⟨?_, ?_⟩
      · intro k hk
        have hk0 : k = 0 := by simp at hk; omega
        subst hk0
        exact ⟨t, o, rfl, hp, rfl⟩
      · refine ⟨unbound t g p o none, by simp [destroyAll, hd], ?_, ?_⟩
        · simp [unbound, hc1, hpl]
        · simp [unbound, hc1]
    · have hpos : 1 ≤ rest.length := by
        cases rest with
        | nil => exact absurd rfl hrest
        | cons _ _ => simp
      simp only [List.length_cons] at hc hlen
      have hc1 : o._ref_counter ≠ 1 := by omega
      have hmod := decr_mod o._ref_counter (by omega) (by omega)
      have hun : unbound t g p o none =
          ⟨t.heap.set p (some { o with _ref_counter := o._ref_counter - 1 }),
            t.handles.set g none, t.deleted⟩ := by
        simp [unbound, hc1, hmod]
      rw [hun] at hd
      have hnd2 := List.nodup_cons.mp hnd
      obtain ⟨ih1, ih2⟩ := ih
        (⟨t.heap.set p (some { o with _ref_counter := o._ref_counter - 1 }),
          t.handles.set g none, t.deleted⟩ : State A R)
        { o with _ref_counter := o._ref_counter - 1 } hnd2.2
        (by
          intro g2 hg2
          have hne : g ≠ g2 := fun e => hnd2.1 (e ▸ hg2)
          simpa [List.getElem?_set_ne hne] using hall g2 (List.mem_cons_of_mem g hg2))
        (by simp [hpl]) (by simp; omega) (by omega) hrest
      refine ⟨?_, ?_⟩
      · intro k hk
        cases k with
        | zero => exact ⟨t, o, rfl, hp, rfl⟩
        | succ k =>
          simp only [List.length_cons] at hk
          obtain ⟨sk, o2, h1, h2, h3⟩ := ih1 k (by omega)
          exact ⟨sk, o2, by simp [destroyAll, hd, h1], h2, h3⟩
      · obtain ⟨s2, h1, h2, h3⟩ := ih2
        exact ⟨s2, by simp [destroyAll, hd, h1], h2, h3⟩

/-- C5: let `h` be the only Function of the live object `p` (counter 1, as after construction
from a callable value).  For every number `N` of copies the machine can hold, after `N` copy
constructions from `h` (the new Functions are the slots after the old ones), destroying the
`N + 1` Functions in any order `order` succeeds; as long as at most `N` of them are
destroyed, `p` is still live and nothing has been deleted; the destruction of the last one
deletes `p`, and that is the only `delete` of the whole run. -/
theorem copies_destroyed_release_once (s : State A R) (h p : Nat) (o : Invokable A R)
    (N : Nat) (order : List Nat)
    (hh : s.handles[h]? = some (some (some p))) (hp : s.heap[p]? = some (some o))
    (h1 : o._ref_counter = 1) (hN : N < SIZE_MAX)
    (hperm : order.Perm (h :: List.range' s.handles.length N)) :
    ∃ s1, copies s h N = .ok s1 ∧
      s1.handles = s.handles ++ List.replicate N (some (some p)) ∧
      (∀ k, k ≤ N → ∃ sk o2, destroyAll s1 (order.take k) = .ok sk ∧
        sk.heap[p]? = some (some o2) ∧ sk.deleted = s.deleted) ∧
      ∃ s2, destroyAll s1 order = .ok s2 ∧ s2.heap[p]? = some none ∧
        s2.deleted = p :: s.deleted := by
  have hlt := lt_of_getElem?_eq_some hh
  obtain ⟨s1, hc1, hc2, hc3, hc4⟩ := copies_eq h p N s o hh hp (by omega)
  have hlen : order.length = N + 1 := by
    rw [hperm.length_eq]; simp
  have hnd : order.Nodup := by
    rw [hperm.nodup_iff]
    refine List.nodup_cons.mpr ⟨?_, List.nodup_range' _ _⟩
    intro hm
    have := (List.mem_range'_1.mp hm).1
    omega
  have hall : ∀ g ∈ order, s1.handles[g]? = some (some (some p)) := by
    intro g hg
    have hg2 := hperm.mem_iff.mp hg
    rw [hc2]
    rcases List.mem_cons.mp hg2 with e | hm
    · subst e
      simpa [List.getElem?_append_left hlt] using hh
    · obtain ⟨hm1, hm2⟩ := List.mem_range'_1.mp hm
      rw [List.getElem?_append_right hm1]
      simp [List.getElem?_replicate]
      omega
  obtain ⟨d1, d2⟩ := destroyAll_eq p order s1 _ hnd hall hc3 (by simp [hlen, h1]; omega)
    (by omega) (by intro e; simp [e] at hlen)
  refine ⟨s1, hc1, hc2, ?_, ?_⟩
  · intro k hk
    obtain ⟨sk, o2, e1, e2, e3⟩ := d1 k (by omega)
    exact ⟨sk, o2, e1, e2, by rw [e3, hc4]⟩
  · obtain ⟨s2, e1, e2, e3⟩ := d2
    exact ⟨s2, e1, e2, by rw [e3, hc4]⟩

/-- Witness of C5: two copies of the Function built from `one_hundred_ret_func`, destroyed in
the order first copy, second copy, original. -/
theorem copies_destroyed_release_once_witness :
    oneBound.handles[0]? = some (some (some 0)) ∧
    oneBound.heap[0]? = some (some ⟨1, one_hundred_ret_func⟩) ∧ 2 < SIZE_MAX ∧
    [1, 2, 0].Perm (0 :: List.range' oneBound.handles.length 2) ∧
    ∃ s1, copies oneBound 0 2 = .ok s1 ∧
      s1.handles = oneBound.handles ++ List.replicate 2 (some (some 0)) ∧
      (∀ k, k ≤ 2 → ∃ sk o2, destroyAll s1 ([1, 2, 0].take k) = .ok sk ∧
        sk.heap[0]? = some (some o2) ∧ sk.deleted = []) ∧
      ∃ s2, destroyAll s1 [1, 2, 0] = .ok s2 ∧ s2.heap[0]? = some none ∧
        s2.deleted = [0] :=
  ⟨rfl, rfl, by decide, by decide,
    copies_destroyed_release_once oneBound 0 0 ⟨1, one_hundred_ret_func⟩ 2 [1, 2, 0]
      rfl rfl rfl (by decide) (by decide)⟩

/-! ## Invariant I2 -/

theorem unbound_heap (s : State A R) (a p : Nat) (o : Invokable A R) (x : Option (Option Nat))
    (hp : s.heap[p]? = some (some o)) (h1 : 1 ≤ o._ref_counter)
    (h2 : o._ref_counter ≤ SIZE_MAX) :
    (o._ref_counter = 1 → (unbound s a p o x).heap[p]? = some none ∧
      (unbound s a p o x).deleted = p :: s.deleted) ∧
    (o._ref_counter ≠ 1 →
      (unbound s a p o x).heap[p]? = some (some { o with _ref_counter := o._ref_counter - 1 }) ∧
      (unbound s a p o x).deleted = s.deleted) ∧
    (unbound s a p o x).heap.length = s.heap.length ∧
    (∀ q, q ≠ p → (unbound s a p o x).heap[q]? = s.heap[q]?) := by
  have hpl := lt_of_getElem?_eq_some hp
  have hmod := decr_mod o._ref_counter h1 h2
  by_cases hc : o._ref_counter = 1
  · simp [unbound, hc, hpl]
    intro q hq
    exact List.getElem?_set_ne (Ne.symm hq)
  · simp [unbound, hc, hpl, hmod]
    intro q hq
    exact List.getElem?_set_ne (Ne.symm hq)

theorem relinquished (s s1 : State A R) (a p : Nat) (o : Invokable A R)
    (x y : Option (Option Nat))
    (ha : s.handles[a]? = some (some (some p))) (hp : s.heap[p]? = some (some o))
    (hcnt : o._ref_counter = s.refs p) (hfit : s.refs p ≤ SIZE_MAX)
    (hy : y ≠ some (some p)) (hh : s1.handles = s.handles.set a y)
    (hheap : s1.heap[p]? = (unbound s a p o x).heap[p]?)
    (hdel : s1.deleted = (unbound s a p o x).deleted) :
    s1.handles[a]? ≠ some (some (some p)) ∧
    s1.refs p = s.refs p - 1 ∧
    (o._ref_counter = 1 →
      s1.heap[p]? = some none ∧ s1.deleted = p :: s.deleted ∧ s1.refs p = 0) ∧
    (o._ref_counter ≠ 1 →
      s1.heap[p]? = some (some { o with _ref_counter := o._ref_counter - 1 }) ∧
      s1.deleted = s.deleted ∧ 1 ≤ s1.refs p) := by
  have hal := lt_of_getElem?_eq_some ha
  have hpos := refs_pos s a p ha
  have hrefs : s1.refs p = s.refs p - 1 := by
    have h := refs_set s a p y s1.heap s1.deleted _ ha
    simp [hy] at h
    have e : s1.refs p = State.refs (⟨s1.heap, s.handles.set a y, s1.deleted⟩ : State A R) p := by
      simp [State.refs, hh]
    rw [e]
    omega
  obtain ⟨u1, u2, _, _⟩ := unbound_heap s a p o x hp (by omega) (by omega)
  refine ⟨?_, hrefs, ?_, ?_⟩
  · rw [hh]
    simp [hal]
    exact hy
  · intro hc
    exact ⟨by rw [hheap]; exact (u1 hc).1, by rw [hdel]; exact (u1 hc).2, by omega⟩
  · intro hc
    exact ⟨by rw [hheap]; exact (u2 hc).1, by rw [hdel]; exact (u2 hc).2, by omega⟩

theorem assign_value_bound (s : State A R) (a p : Nat) (o : Invokable A R) (c : Callable A R)
    (ha : s.handles[a]? = some (some (some p))) (hp : s.heap[p]? = some (some o)) :
    Function.assign_value s a c =
      .ok ⟨(unbound s a p o (some none)).heap ++ [some ⟨1, c⟩],
        s.handles.set a (some (some s.heap.length)), (unbound s a p o (some none)).deleted⟩ := by
  have h2 := acquire_new_eq (unbound s a p o (some none)) a c
  have hl : (unbound s a p o (some none)).heap.length = s.heap.length := by
    unfold unbound; split <;> simp
  simp only [State.new] at h2
  simp only [Function.assign_value, drop_bound s a p o ha hp, State.new, h2]
  simp [unbound_handles, hl]

theorem assign_bound_empty (s : State A R) (a b p : Nat) (o : Invokable A R)
    (ha : s.handles[a]? = some (some (some p))) (hp : s.heap[p]? = some (some o))
    (hb : s.handles[b]? = some (some none)) :
    Function.assign s a b = .ok (unbound s a p o (some none)) := by
  have hab : a ≠ b := by
    intro e; subst e; rw [ha] at hb; simp at hb
  have hb1 : (unbound s a p o (some none)).handles[b]? = some (some none) := by
    rw [unbound_handles, List.getElem?_set_ne hab]; exact hb
  simp [Function.assign, hab, drop_bound s a p o ha hp, readInvokable_alive _ b _ hb1]

theorem assign_bound_bound (s : State A R) (a b p q : Nat) (o oq : Invokable A R)
    (ha : s.handles[a]? = some (some (some p))) (hp : s.heap[p]? = some (some o))
    (hb : s.handles[b]? = some (some (some q))) (hq : s.heap[q]? = some (some oq))
    (hqp : q ≠ p) :
    Function.assign s a b =
      .ok ⟨(unbound s a p o (some none)).heap.set q
          (some { oq with _ref_counter := (oq._ref_counter + 1) % (SIZE_MAX + 1) }),
        s.handles.set a (some (some q)), (unbound s a p o (some none)).deleted⟩ := by
  have hab : a ≠ b := by
    intro e; subst e; rw [ha] at hb; simp at hb; exact hqp hb.symm
  have hb1 : (unbound s a p o (some none)).handles[b]? = some (some (some q)) := by
    rw [unbound_handles, List.getElem?_set_ne hab]; exact hb
  have hq1 : (unbound s a p o (some none)).heap[q]? = some (some oq) := by
    unfold unbound
    split <;> simpa [List.getElem?_set_ne (Ne.symm hqp)] using hq
  simp [Function.assign, hab, drop_bound s a p o ha hp, readInvokable_alive _ b _ hb1,
    acquire_eq _ a q oq hq1, unbound_handles]

/-- C6: let the living Function `a` point to the live object `p` whose counter `c` equals the
number of living Functions pointing to `p`.  The destructor of `a`, the assignment of a
callable value to `a` and the assignment to `a` of a Function that does not point to `p`
(empty, or bound to another live object) all succeed, and after each of them `a` no longer
points to `p`, the number of Functions pointing to `p` is one less, and: if `c` was 1, `p` has
been deleted (by the one `delete` of the operation) and no Function points to it; otherwise
`p` is live with counter `c - 1`, nothing has been deleted and some Function still points
to `p`. -/
theorem release_decrements_and_frees_at_zero (s : State A R) (a p : Nat) (o : Invokable A R)
    (ha : s.handles[a]? = some (some (some p))) (hp : s.heap[p]? = some (some o))
    (hcnt : o._ref_counter = s.refs p) (hfit : s.refs p ≤ SIZE_MAX) :
    (∃ s1, Function.dtor s a = .ok s1) ∧
    (∀ c, ∃ s1, Function.assign_value s a c = .ok s1) ∧
    (∀ b, (s.handles[b]? = some (some none) ∨
        ∃ q oq, q ≠ p ∧ s.handles[b]? = some (some (some q)) ∧ s.heap[q]? = some (some oq)) →
      ∃ s1, Function.assign s a b = .ok s1) ∧
    ∀ s1, (Function.dtor s a = .ok s1 ∨
        (∃ c, Function.assign_value s a c = .ok s1) ∨
        (∃ b, (s.handles[b]? = some (some none) ∨
          ∃ q oq, q ≠ p ∧ s.handles[b]? = some (some (some q)) ∧
            s.heap[q]? = some (some oq)) ∧ Function.assign s a b = .ok s1)) →
      s1.handles[a]? ≠ some (some (some p)) ∧
      s1.refs p = s.refs p - 1 ∧
      (o._ref_counter = 1 →
        s1.heap[p]? = some none ∧ s1.deleted = p :: s.deleted ∧ s1.refs p = 0) ∧
      (o._ref_counter ≠ 1 →
        s1.heap[p]? = some (some { o with _ref_counter := o._ref_counter - 1 }) ∧
        s1.deleted = s.deleted ∧ 1 ≤ s1.refs p) := by
  have hpl := lt_of_getElem?_eq_some hp
  have hal := lt_of_getElem?_eq_some ha
  refine ⟨⟨_, dtor_bound s a p o ha hp⟩, fun c => ⟨_, assign_value_bound s a p o c ha hp⟩,
    ?_, ?_⟩
  · rintro b (hb | ⟨q, oq, hqp, hb, hq⟩)
    · exact ⟨_, assign_bound_empty s a b p o ha hp hb⟩
    · exact ⟨_, assign_bound_bound s a b p q o oq ha hp hb hq hqp⟩
  · rintro s1 (h | ⟨c, h⟩ | ⟨b, hb | ⟨q, oq, hqp, hb, hq⟩, h⟩)
    · rw [dtor_bound s a p o ha hp] at h
      cases h
      exact relinquished s _ a p o none none ha hp hcnt hfit (by simp)
        (unbound_handles s a p o none) rfl rfl
    · rw [assign_value_bound s a p o c ha hp] at h
      cases h
      refine relinquished s _ a p o (some none) (some (some s.heap.length)) ha hp hcnt hfit
        (by simp; omega) rfl ?_ rfl
      have hl : p < (unbound s a p o (some none)).heap.length := by
        unfold unbound; split <;> simpa using hpl
      simp [List.getElem?_append_left hl]
    · rw [assign_bound_empty s a b p o ha hp hb] at h
      cases h
      exact relinquished s _ a p o (some none) (some none) ha hp hcnt hfit (by simp)
        (unbound_handles s a p o _) rfl rfl
    · rw [assign_bound_bound s a b p q o oq ha hp hb hq hqp] at h
      cases h
      refine relinquished s _ a p o (some none) (some (some q)) ha hp hcnt hfit
        (by simpa using hqp) rfl ?_ rfl
      simp [List.getElem?_set_ne hqp]

/-! ## Assignment -/

theorem set_of_getElem? {α : Type*} : ∀ (l : List α) (i : Nat) (x : α),
    l[i]? = some x → l.set i x = l := by
  intro l
  induction l with
  | nil => intro i x h; simp at h
  | cons z l ih =>
    intro i x h
    cases i with
    | zero => simp at h; simp [h]
    | succ i => simp at h; simp [ih i x h]

theorem drop_released (s : State A R) (a : Nat) (pa : Option Nat) (hinv : s.Inv)
    (ha : s.handles[a]? = some (some pa)) :
    ∃ s1, Function.drop s a = .ok s1 ∧ s1.Inv ∧
      s1.handles = s.handles.set a (some none) ∧
      s1.heap.length = s.heap.length ∧
      (pa = none → s1 = s) ∧
      (∀ p, pa = some p → ∃ o, s.heap[p]? = some (some o) ∧
        (o._ref_counter = 1 → s1.heap[p]? = some none ∧ s1.deleted = p :: s.deleted) ∧
        (o._ref_counter ≠ 1 →
          s1.heap[p]? = some (some { o with _ref_counter := o._ref_counter - 1 }) ∧
          s1.deleted = s.deleted) ∧
        ∀ q, q ≠ p → s1.heap[q]? = s.heap[q]?) := by
  have hal := lt_of_getElem?_eq_some ha
  cases pa with
  | none =>
    refine ⟨s, drop_empty s a ha, hinv, ?_, rfl, fun _ => rfl, ?_⟩
    · exact (set_of_getElem? _ _ _ ha).symm
    · intro p hp; cases hp
  | some p =>
    obtain ⟨o, ho⟩ := hinv.bound_live a p ha
    obtain ⟨hcnt, hpos⟩ := hinv.counted p o ho
    have hle : s.refs p ≤ SIZE_MAX := le_trans (refs_le_live s p) hinv.fits
    obtain ⟨u1, u2, u3, u4⟩ := unbound_heap s a p o (some none) ho (by omega) (by omega)
    refine ⟨_, drop_bound s a p o ha ho, inv_unbound s a p o _ hinv ha ho (by simp),
      unbound_handles s a p o _, u3, fun h => (by cases h), ?_⟩
    intro p2 hp2
    cases hp2
    exact ⟨o, ho, u1, u2, u4⟩

/-- C8: in a state satisfying the counting invariant, for two distinct living Functions `a`
and `h`, the assignment `a = h` succeeds.  Its release block (`Function.drop`, state `s1`)
gives up the previous reference of `a` per I2: if `a` pointed to `p`, then `p` is deleted
when its counter was 1 and has its counter decremented otherwise; if `a` was empty nothing
changes.  If `h` is bound to `q`, then afterwards `a` points to `q`, the counter of `q` is one
more than after the release block, and invoking `a` gives the same outcome as invoking `h`,
namely the result of the stored callable; if `h` is empty, `a` is empty afterwards.  The
binding of `h` and of every Function other than `a` is unchanged. -/
theorem assign_rebinds (s : State A R) (a h : Nat) (pa ph : Option Nat) (hinv : s.Inv)
    (hne : a ≠ h) (ha : s.handles[a]? = some (some pa))
    (hh : s.handles[h]? = some (some ph)) :
    ∃ s1 s2, Function.drop s a = .ok s1 ∧ Function.assign s a h = .ok s2 ∧
      (pa = none → s1 = s) ∧
      (∀ p, pa = some p → ∃ o, s.heap[p]? = some (some o) ∧
        (o._ref_counter = 1 → s1.heap[p]? = some none ∧ s1.deleted = p :: s.deleted) ∧
        (o._ref_counter ≠ 1 →
          s1.heap[p]? = some (some { o with _ref_counter := o._ref_counter - 1 }) ∧
          s1.deleted = s.deleted)) ∧
      (ph = none → s2.handles[a]? = some (some none) ∧ s2.heap = s1.heap) ∧
      (∀ q, ph = some q → s2.handles[a]? = some (some (some q)) ∧
        ∃ o1, s1.heap[q]? = some (some o1) ∧
          s2.heap[q]? = some (some { o1 with _ref_counter := o1._ref_counter + 1 }) ∧
          (∀ r, r ≠ q → s2.heap[r]? = s1.heap[r]?) ∧
          ∀ args, Function.call s2 a args = Function.call s2 h args ∧
            ∃ s3, Function.call s2 h args =
              .ok (.ok (o1._function_type.apply args).1, s3)) ∧
      s2.handles[h]? = s.handles[h]? ∧
      (∀ b, b ≠ a → s2.handles[b]? = s.handles[b]?) ∧
      s2.deleted = s1.deleted := by
  have hal := lt_of_getElem?_eq_some ha
  obtain ⟨s1, hd, hinv1, hhs, _, hnone, hsome⟩ := drop_released s a pa hinv ha
  have hh1 : s1.handles[h]? = some (some ph) := by
    rw [hhs, List.getElem?_set_ne hne]; exact hh
  have ha1 : s1.handles[a]? = some (some none) := by
    rw [hhs]; simp [hal]
  have hrel : ∀ p, pa = some p → ∃ o, s.heap[p]? = some (some o) ∧
      (o._ref_counter = 1 → s1.heap[p]? = some none ∧ s1.deleted = p :: s.deleted) ∧
      (o._ref_counter ≠ 1 →
        s1.heap[p]? = some (some { o with _ref_counter := o._ref_counter - 1 }) ∧
        s1.deleted = s.deleted) := by
    intro p hp
    obtain ⟨o, h1, h2, h3, _⟩ := hsome p hp
    exact ⟨o, h1, h2, h3⟩
  have hothers : ∀ b, b ≠ a → s1.handles[b]? = s.handles[b]? := by
    intro b hb
    rw [hhs, List.getElem?_set_ne (Ne.symm hb)]
  cases ph with
  | none =>
    refine ⟨s1, s1, hd, ?_, hnone, hrel, fun _ => ⟨ha1, rfl⟩, ?_, ?_, hothers, rfl⟩
    · simp [Function.assign, hne, hd, readInvokable_alive s1 h _ hh1]
    · intro q hq; cases hq
    · rw [hh1, hh]
  | some q =>
    obtain ⟨o1, ho1⟩ := hinv1.bound_live h q hh1
    have hql := lt_of_getElem?_eq_some ho1
    have hal1 : a < s1.handles.length := lt_of_getElem?_eq_some ha1
    obtain ⟨hmod, _⟩ := inv_acquire s1 a q o1 hinv1 ha1 ho1
    have hassign : Function.assign s a h =
        .ok ⟨s1.heap.set q (some { o1 with _ref_counter := o1._ref_counter + 1 }),
          s1.handles.set a (some (some q)), s1.deleted⟩ := by
      simp [Function.assign, hne, hd, readInvokable_alive s1 h _ hh1,
        acquire_eq s1 a q o1 ho1, hmod]
    refine ⟨s1, _, hd, hassign, hnone, hrel, fun e => (by cases e), ?_, ?_, ?_, rfl⟩
    · intro q2 hq2
      cases hq2
      refine ⟨by simp [hal1], o1, ho1, by simp [hql], ?_, ?_⟩
      · intro r hr
        simp [List.getElem?_set_ne (Ne.symm hr)]
      · intro args
        have hca := call_bound
          (⟨s1.heap.set q (some { o1 with _ref_counter := o1._ref_counter + 1 }),
            s1.handles.set a (some (some q)), s1.deleted⟩ : State A R) a q
          { o1 with _ref_counter := o1._ref_counter + 1 } args (by simp [hal1])
          (by simp [hql])
        have hch := call_bound
          (⟨s1.heap.set q (some { o1 with _ref_counter := o1._ref_counter + 1 }),
            s1.handles.set a (some (some q)), s1.deleted⟩ : State A R) h q
          { o1 with _ref_counter := o1._ref_counter + 1 } args
          (by simpa [List.getElem?_set_ne hne] using hh1) (by simp [hql])
        exact ⟨by rw [hca, hch], _, hch⟩
    · simpa [List.getElem?_set_ne hne, hh] using hh1
    · intro b hb
      simpa [List.getElem?_set_ne (Ne.symm hb)] using hothers b hb

/-- C9: in a state satisfying the counting invariant, assigning a callable value `c` to a
living Function `a` (empty or bound) succeeds and binds `a` to the object created by the
`new`-expression of the assignment: it holds `c` with counter exactly 1, its identity differs
from that of every object that existed before (live or deleted, the previous one of `a`
included), and no other Function points to it.  The previous reference of `a` is given up
per I2 by the release block (state `s1`); objects other than the previous and the new one,
and all other Functions, are unchanged. -/
theorem assign_value_fresh (s : State A R) (a : Nat) (pa : Option Nat) (c : Callable A R)
    (hinv : s.Inv) (ha : s.handles[a]? = some (some pa)) :
    ∃ s1 s2, Function.drop s a = .ok s1 ∧ Function.assign_value s a c = .ok s2 ∧
      s2.handles[a]? = some (some (some s.heap.length)) ∧
      s2.heap[s.heap.length]? = some (some ⟨1, c⟩) ∧
      s2.heap.length = s.heap.length + 1 ∧
      (∀ q x, s.heap[q]? = some x → q ≠ s.heap.length) ∧
      (∀ p, pa = some p → p ≠ s.heap.length) ∧
      (∀ b, b ≠ a → s2.handles[b]? = s.handles[b]? ∧
        s2.handles[b]? ≠ some (some (some s.heap.length))) ∧
      (pa = none → s1 = s) ∧
      (∀ p, pa = some p → ∃ o, s.heap[p]? = some (some o) ∧
        (o._ref_counter = 1 → s2.heap[p]? = some none ∧ s2.deleted = p :: s.deleted) ∧
        (o._ref_counter ≠ 1 →
          s2.heap[p]? = some (some { o with _ref_counter := o._ref_counter - 1 }) ∧
          s2.deleted = s.deleted)) ∧
      (∀ q, q < s.heap.length → s2.heap[q]? = s1.heap[q]?) ∧
      s2.deleted = s1.deleted := by
  have hal := lt_of_getElem?_eq_some ha
  obtain ⟨s1, hd, hinv1, hhs, hlen, hnone, hsome⟩ := drop_released s a pa hinv ha
  have hal1 : a < s1.handles.length := by rw [hhs]; simpa using hal
  have hassign : Function.assign_value s a c =
      .ok ⟨s1.heap ++ [some ⟨1, c⟩], s1.handles.set a (some (some s.heap.length)),
        s1.deleted⟩ := by
    have h2 := acquire_new_eq s1 a c
    simp only [State.new, hlen] at h2
    simp only [Function.assign_value, hd, State.new, hlen, h2]
  have hfresh : ∀ b q : Nat, s.handles[b]? = some (some (some q)) → q ≠ s.heap.length := by
    intro b q hb
    obtain ⟨o, ho⟩ := hinv.bound_live b q hb
    have := lt_of_getElem?_eq_some ho
    omega
  have hold : ∀ q, q < s.heap.length →
      (s1.heap ++ [some (⟨1, c⟩ : Invokable A R)])[q]? = s1.heap[q]? := by
    intro q hq
    exact List.getElem?_append_left (by omega)
  refine ⟨s1, _, hd, hassign, by simp [hal1], ?_, by simp [hlen], ?_, ?_, ?_, hnone, ?_,
    hold, rfl⟩
  · rw [← hlen]; simp
  · intro q x hq
    have := lt_of_getElem?_eq_some hq
    omega
  · intro p hp
    subst hp
    exact hfresh a p ha
  · intro b hb
    have e : (s1.handles.set a (some (some s.heap.length)))[b]? = s.handles[b]? := by
      rw [List.getElem?_set_ne (Ne.symm hb), hhs, List.getElem?_set_ne (Ne.symm hb)]
    refine ⟨e, ?_⟩
    show (s1.handles.set a (some (some s.heap.length)))[b]? ≠ _
    rw [e]
    intro hb2
    exact hfresh b _ hb2 rfl
  · intro p hp
    obtain ⟨o, h1, h2, h3, _⟩ := hsome p hp
    have hpl := lt_of_getElem?_eq_some h1
    refine ⟨o, h1, ?_, ?_⟩
    · intro hc
      exact ⟨by show (s1.heap ++ _)[p]? = _; rw [hold p hpl]; exact (h2 hc).1, (h2 hc).2⟩
    · intro hc
      exact ⟨by show (s1.heap ++ _)[p]? = _; rw [hold p hpl]; exact (h3 hc).1, (h3 hc).2⟩

/-! ## Sample states of the test program -/

theorem reachable_oneBound : Reachable oneBound :=
  Reachable.step State.empty _ (Op.ctor_value one_hundred_ret_func) Reachable.init
    (fun _ => by decide) rfl

theorem reachable_twoSharing : Reachable twoSharing :=
  Reachable.step oneBound _ (Op.ctor_copy 0) reachable_oneBound (fun _ => by decide) rfl

theorem reachable_twoBound : Reachable twoBound :=
  Reachable.step oneBound _ (Op.ctor_value two_hundred_ret_functor) reachable_oneBound
    (fun _ => by decide) rfl

/-- Witness of C6: of two Functions sharing one object, the first is destroyed. -/
theorem release_decrements_and_frees_at_zero_witness :
    twoSharing.handles[0]? = some (some (some 0)) ∧
    twoSharing.heap[0]? = some (some ⟨2, one_hundred_ret_func⟩) ∧
    2 = twoSharing.refs 0 ∧ twoSharing.refs 0 ≤ SIZE_MAX ∧
    (∃ s1, Function.dtor twoSharing 0 = .ok s1) ∧
    ∀ s1, Function.dtor twoSharing 0 = .ok s1 →
      s1.refs 0 = twoSharing.refs 0 - 1 ∧ s1.handles[0]? ≠ some (some (some 0)) :=
  ⟨rfl, rfl, rfl, by decide,
    (release_decrements_and_frees_at_zero twoSharing 0 0 ⟨2, one_hundred_ret_func⟩
      rfl rfl rfl (by decide)).1,
    fun s1 h =>
      ⟨((release_decrements_and_frees_at_zero twoSharing 0 0 ⟨2, one_hundred_ret_func⟩
        rfl rfl rfl (by decide)).2.2.2 s1 (Or.inl h)).2.1,
      ((release_decrements_and_frees_at_zero twoSharing 0 0 ⟨2, one_hundred_ret_func⟩
        rfl rfl rfl (by decide)).2.2.2 s1 (Or.inl h)).1⟩⟩

/-- Witness of C8: `f = g` for `f` bound to `one_hundred_ret_func` and `g` bound to the
functor. -/
theorem assign_rebinds_witness :
    twoBound.Inv ∧ 0 ≠ 1 ∧ twoBound.handles[0]? = some (some (some 0)) ∧
    twoBound.handles[1]? = some (some (some 1)) ∧
    ∃ s1 s2, Function.drop twoBound 0 = .ok s1 ∧ Function.assign twoBound 0 1 = .ok s2 ∧
      s2.handles[0]? = some (some (some 1)) ∧ s2.handles[1]? = twoBound.handles[1]? ∧
      ∀ args, Function.call s2 0 args = Function.call s2 1 args := by
  refine ⟨reachable_inv _ reachable_twoBound, by decide, rfl, rfl, ?_⟩
  obtain ⟨s1, s2, h1, h2, _, _, _, h6, h7, _⟩ :=
    assign_rebinds twoBound 0 1 (some 0) (some 1) (reachable_inv _ reachable_twoBound)
      (by decide) rfl rfl
  obtain ⟨h8, o1, _, _, _, h9⟩ := h6 1 rfl
  exact ⟨s1, s2, h1, h2, h8, h7, fun args => (h9 args).1⟩

/-- Witness of C9: `f = two_hundred_ret_functor{}` for `f` bound to
`one_hundred_ret_func`. -/
theorem assign_value_fresh_witness :
    oneBound.Inv ∧ oneBound.handles[0]? = some (some (some 0)) ∧
    ∃ s1 s2, Function.drop oneBound 0 = .ok s1 ∧
      Function.assign_value oneBound 0 two_hundred_ret_functor = .ok s2 ∧
      s2.handles[0]? = some (some (some 1)) ∧
      s2.heap[1]? = some (some ⟨1, two_hundred_ret_functor⟩) := by
  refine ⟨reachable_inv _ reachable_oneBound, rfl, ?_⟩
  obtain ⟨s1, s2, h1, h2, h3, h4, _⟩ :=
    assign_value_fresh oneBound 0 (some 0) two_hundred_ret_functor
      (reachable_inv _ reachable_oneBound) rfl
  exact ⟨s1, s2, h1, h2, h3, h4⟩

/-! ## Emptiness and comparison with `nullptr` -/

/-- C11: for a living Function `f` whose `_invokable` is `p`, the truth-value conversion
gives `true` exactly when `p` is not `nullptr`, that is when `f` points to an object;
`f == nullptr` and `nullptr == f` both give its negation, `f != nullptr` and `nullptr != f`
both give the truth value itself. -/
theorem nullptr_comparisons (s : State A R) (f : Nat) (p : Option Nat)
    (hf : s.handles[f]? = some (some p)) :
    Function.toBool s f = .ok p.isSome ∧
    Function.eq_nullptr s f = .ok (!p.isSome) ∧
    nullptr_eq s f = .ok (!p.isSome) ∧
    Function.ne_nullptr s f = .ok p.isSome ∧
    nullptr_ne s f = .ok p.isSome ∧
    (p.isSome = true ↔ ∃ q, s.handles[f]? = some (some (some q))) := by
  have hb : Function.toBool s f = .ok p.isSome := by
    cases p <;> simp [Function.toBool, readInvokable_alive s f _ hf]
  refine ⟨hb, ?_, ?_, hb, hb, ?_⟩
  · simp [Function.eq_nullptr, Function.ne_nullptr, hb]
  · simp [nullptr_eq, Function.ne_nullptr, hb]
  · rw [hf]
    cases p <;> simp

/-- Witness of C11: the bound Function and a default-constructed one. -/
theorem nullptr_comparisons_witness :
    oneBound.handles[0]? = some (some (some 0)) ∧
    (Function.ctor_default oneBound).1.handles[1]? = some (some none) ∧
    Function.eq_nullptr oneBound 0 = .ok false ∧ nullptr_eq oneBound 0 = .ok false ∧
    Function.ne_nullptr oneBound 0 = .ok true ∧ nullptr_ne oneBound 0 = .ok true ∧
    Function.eq_nullptr (Function.ctor_default oneBound).1 1 = .ok true ∧
    nullptr_ne (Function.ctor_default oneBound).1 1 = .ok false :=
  ⟨rfl, rfl,
    (nullptr_comparisons oneBound 0 (some 0) rfl).2.1,
    (nullptr_comparisons oneBound 0 (some 0) rfl).2.2.1,
    (nullptr_comparisons oneBound 0 (some 0) rfl).2.2.2.1,
    (nullptr_comparisons oneBound 0 (some 0) rfl).2.2.2.2.1,
    (nullptr_comparisons (Function.ctor_default oneBound).1 1 none rfl).2.1,
    (nullptr_comparisons (Function.ctor_default oneBound).1 1 none rfl).2.2.2.2.1⟩

/-! ## Invocation leaves the container alone -/

/-- C14: invoking a living Function (empty, or bound to a live object) returns or throws,
and afterwards every Function has the binding it had, the release log and the number of
objects are the same, every object is as live as before with the same counter, and every
object other than the invoked one is unchanged.  An empty Function throws and the state is
the same; a bound one returns the result of its stored callable, whose value afterwards is
the one that callable left. -/
theorem call_frame (s : State A R) (this : Nat) (pt : Option Nat) (args : A)
    (hthis : s.handles[this]? = some (some pt))
    (hlive : ∀ p, pt = some p → ∃ o, s.heap[p]? = some (some o)) :
    ∃ r s1, Function.call s this args = .ok (r, s1) ∧
      s1.handles = s.handles ∧ s1.deleted = s.deleted ∧ s1.heap.length = s.heap.length ∧
      (∀ q : Nat, (s1.heap[q]?).map (Option.map Invokable._ref_counter) =
        (s.heap[q]?).map (Option.map Invokable._ref_counter)) ∧
      (∀ q : Nat, pt ≠ some q → s1.heap[q]? = s.heap[q]?) ∧
      (pt = none → r = .error .mk ∧ s1 = s) ∧
      (∀ p o, pt = some p → s.heap[p]? = some (some o) →
        r = .ok (o._function_type.apply args).1 ∧
        s1.heap[p]? = some (some ⟨o._ref_counter, (o._function_type.apply args).2⟩)) := by
  cases pt with
  | none =>
    refine ⟨_, _, call_empty s this args hthis, rfl, rfl, rfl, fun _ => rfl, fun _ _ => rfl,
      fun _ => ⟨rfl, rfl⟩, ?_⟩
    intro p o hp
    cases hp
  | some p =>
    obtain ⟨o, ho⟩ := hlive p rfl
    have hpl := lt_of_getElem?_eq_some ho
    refine ⟨_, _, call_bound s this p o args hthis ho, rfl, rfl, by simp [State.store], ?_, ?_,
      fun e => (by cases e), ?_⟩
    · intro q
      by_cases hq : q = p
      · subst hq
        simp [State.store, hpl, ho, Invokable.call]
      · simp [State.store, List.getElem?_set_ne (Ne.symm hq)]
    · intro q hq
      have hqp : p ≠ q := fun e => hq (by rw [e])
      simp [State.store, List.getElem?_set_ne hqp]
    · intro p2 o2 hp2 ho2
      cases hp2
      rw [ho] at ho2
      cases ho2
      exact ⟨rfl, by simp [State.store, hpl, Invokable.call]⟩

/-- Witness of C14: invoking the Function bound to `one_hundred_ret_func`. -/
theorem call_frame_witness :
    oneBound.handles[0]? = some (some (some 0)) ∧
    ∃ r s1, Function.call oneBound 0 () = .ok (r, s1) ∧ s1.handles = oneBound.handles ∧
      s1.deleted = oneBound.deleted ∧ s1.heap.length = oneBound.heap.length := by
  refine ⟨rfl, ?_⟩
  obtain ⟨r, s1, h1, h2, h3, h4, _⟩ :=
    call_frame oneBound 0 (some 0) () rfl (fun p hp => ⟨⟨1, one_hundred_ret_func⟩, by
      cases hp; rfl⟩)
  exact ⟨r, s1, h1, h2, h3, h4⟩

/-! ## The message of `BadFunctionCall` -/

/-- C16, as stated, fails: the exception thrown by invoking a default-constructed Function
reports a text different from "no callable target is set". -/
theorem what_differs_from_spec_text :
    ∃ e s1, Function.call (Function.ctor_default (State.empty : State Unit Int)).1 0 () =
        .ok (.error e, s1) ∧ e.what ≠ "no callable target is set" :=
  ⟨.mk, _, rfl, by decide⟩

/-- C16, amended: the `BadFunctionCall` thrown by invoking an empty Function reports
"BadFunctionCall exception" followed by a newline. -/
theorem call_empty_what (s : State A R) (h : Nat) (a : A)
    (he : s.handles[h]? = some (some none)) :
    ∃ e, Function.call s h a = .ok (.error e, s) ∧ e.what = "BadFunctionCall exception\n" :=
  ⟨.mk, call_empty s h a he, rfl⟩

/-- Witness of C16 (amended): invoking a default-constructed Function. -/
theorem call_empty_what_witness :
    (Function.ctor_default (State.empty : State Unit Int)).1.handles[0]? = some (some none) ∧
    ∃ e, Function.call (Function.ctor_default (State.empty : State Unit Int)).1 0 () =
        .ok (.error e, (Function.ctor_default (State.empty : State Unit Int)).1) ∧
      e.what = "BadFunctionCall exception\n" :=
  ⟨rfl, call_empty_what (Function.ctor_default (State.empty : State Unit Int)).1 0 () rfl⟩

/-! ## The exact-count invariant -/

theorem refs_pos_iff (s : State A R) (p : Nat) (h : 1 ≤ s.refs p) :
    ∃ a : Nat, s.handles[a]? = some (some (some p)) := by
  unfold State.refs at h
  obtain ⟨x, hx, hfx⟩ := List.countP_pos_iff.mp h
  simp only [decide_eq_true_eq] at hfx
  subst hfx
  exact List.mem_iff_getElem?.mp hx

/-- C19: in every state reachable from the empty state through the public operations, the
counter of each live object equals the number of living Functions bound to it, at least one
living Function is bound to it, and so its counter is between 1 and `SIZE_MAX` and the
unsigned decrement of the counter does not wrap around. -/
theorem reachable_exact_count (s : State A R) (hs : Reachable s) (p : Nat)
    (o : Invokable A R) (hp : s.heap[p]? = some (some o)) :
    o._ref_counter = s.refs p ∧
    (∃ a : Nat, s.handles[a]? = some (some (some p))) ∧
    1 ≤ o._ref_counter ∧ o._ref_counter ≤ SIZE_MAX ∧
    (o._ref_counter + SIZE_MAX) % (SIZE_MAX + 1) = o._ref_counter - 1 := by
  have hinv := reachable_inv s hs
  obtain ⟨hc, hpos⟩ := hinv.counted p o hp
  have hle : s.refs p ≤ SIZE_MAX := le_trans (refs_le_live s p) hinv.fits
  exact ⟨hc, refs_pos_iff s p hpos, by omega, by omega, decr_mod _ (by omega) (by omega)⟩

/-- Witness of C19: the state after `f(one_hundred_ret_func)` and `g(f)`. -/
theorem reachable_exact_count_witness :
    Reachable twoSharing ∧ twoSharing.heap[0]? = some (some ⟨2, one_hundred_ret_func⟩) ∧
    2 = twoSharing.refs 0 ∧ (∃ a : Nat, twoSharing.handles[a]? = some (some (some 0))) :=
  ⟨reachable_twoSharing, rfl,
    (reachable_exact_count twoSharing reachable_twoSharing 0 ⟨2, one_hundred_ret_func⟩ rfl).1,
    (reachable_exact_count twoSharing reachable_twoSharing 0 ⟨2, one_hundred_ret_func⟩ rfl).2.1⟩

/-! ## Sequences of invocations -/

theorem wrapInt_of_fits (x : Int) (h1 : INT_MIN ≤ x) (h2 : x ≤ INT_MAX) : wrapInt x = x := by
  unfold wrapInt
  unfold INT_MIN at h1
  unfold INT_MAX at h2
  omega

theorem wrapInt_add_wrapInt (x y : Int) : wrapInt (x + wrapInt y) = wrapInt (x + y) := by
  unfold wrapInt
  omega

theorem callSeq_cons (t t1 t2 : State A R) (f : Nat) (args : A) (rest : List (Nat × A))
    (r : Except BadFunctionCall R) (rs : List (Except BadFunctionCall R))
    (h1 : Function.call t f args = .ok (r, t1)) (h2 : callSeq t1 rest = .ok (rs, t2)) :
    callSeq t ((f, args) :: rest) = .ok (r :: rs, t2) := by
  simp [callSeq, h1, h2]

theorem range_map_shift {β : Type} (g : Int → β) (v : Int) (n : Nat) :
    (List.range (n + 1)).map (fun j : Nat => g (v + (j : Int))) =
      g v :: (List.range n).map (fun j : Nat => g (v + 1 + (j : Int))) := by
  rw [List.range_succ_eq_map]
  simp [List.map_map, Function.comp_def, add_assoc, add_comm (1 : Int)]

theorem callSeq_counter (f p : Nat) : ∀ (n : Nat) (t : State Unit Int) (c : Nat) (v : Int),
    t.handles[f]? = some (some (some p)) → t.heap[p]? = some (some ⟨c, Functor_i v⟩) →
    INT_MIN ≤ v → v + n ≤ INT_MAX + 1 →
    ∃ t1, callSeq t (List.replicate n (f, ())) =
      .ok ((List.range n).map (fun j : Nat => .ok (v + (j : Int))), t1) := by
  intro n
  induction n with
  | zero => intro t c v _ _ _ _; exact ⟨t, rfl⟩
  | succ n ih =>
    intro t c v hf hp hv hn
    have hpl := lt_of_getElem?_eq_some hp
    have hcall : Function.call t f () = .ok (.ok v, t.store p ⟨c, Functor_i (wrapInt (v + 1))⟩) :=
      call_bound t f p ⟨c, Functor_i v⟩ () hf hp
    rw [range_map_shift]
    cases n with
    | zero =>
      exact ⟨_, callSeq_cons _ _ _ f () [] _ [] hcall rfl⟩
    | succ m =>
      have hfit : wrapInt (v + 1) = v + 1 :=
        wrapInt_of_fits _ (by omega) (by push_cast at hn; omega)
      rw [hfit] at hcall
      obtain ⟨t1, h1⟩ := ih (t.store p ⟨c, Functor_i (v + 1)⟩) c (v + 1)
        (by simpa [State.store] using hf) (by simp [State.store, hpl])
        (by omega) (by push_cast at hn ⊢; omega)
      exact ⟨t1, callSeq_cons _ _ _ f () _ _ _ hcall h1⟩

/-- C12: for the counter functor with field `i = k`, where `k` and the values returned are
`int` values (`INT_MIN ≤ k` and `k + n - 1 ≤ INT_MAX`): construction of a Function from it
succeeds and `n` successive invocations return `k, k + 1, ..., k + n - 1` (the `j`-th one
returns `k + j - 1`); the source functor is a value of its own, its field is still `k` and a
direct call of it still returns `k`. -/
theorem functor_value_semantics (s : State Unit Int) (k : Int) (n : Nat)
    (hk : INT_MIN ≤ k) (hn : k + n ≤ INT_MAX + 1) :
    ∃ s1 f s2, Function.ctor_value s (Functor_i k) = .ok (s1, f) ∧
      callSeq s1 (List.replicate n (f, ())) =
        .ok ((List.range n).map (fun j : Nat => .ok (k + (j : Int))), s2) ∧
      (Functor_i k).val = k ∧ ((Functor_i k).apply ()).1 = k := by
  obtain ⟨t1, h1⟩ := callSeq_counter s.handles.length s.heap.length n
    ⟨s.heap ++ [some ⟨1, Functor_i k⟩], s.handles ++ [some (some s.heap.length)], s.deleted⟩
    1 k (by simp) (by simp) hk hn
  exact ⟨_, _, t1, ctor_value_eq s (Functor_i k), h1, rfl, rfl⟩

/-- Witness of C12: the test itself, `i = 0` and three invocations. -/
theorem functor_value_semantics_witness :
    INT_MIN ≤ 0 ∧ (0 : Int) + (3 : Nat) ≤ INT_MAX + 1 ∧
    ∃ s1 f s2, Function.ctor_value (State.empty : State Unit Int) (Functor_i 0) = .ok (s1, f) ∧
      callSeq s1 (List.replicate 3 (f, ())) =
        .ok ((List.range 3).map (fun j : Nat => .ok ((0 : Int) + (j : Int))), s2) ∧
      (Functor_i 0).val = (0 : Int) ∧ ((Functor_i 0).apply ()).1 = 0 :=
  ⟨by decide, by decide, functor_value_semantics State.empty 0 3 (by decide) (by decide)⟩

theorem callSeq_shared (p : Nat) : ∀ (seq : List (Nat × A)) (t : State A R)
    (o : Invokable A R), t.heap[p]? = some (some o) →
    (∀ x ∈ seq, t.handles[x.1]? = some (some (some p))) →
    ∃ rs t1, callSeq t seq = .ok (rs, t1) ∧
      ∀ f, t.handles[f]? = some (some (some p)) →
        callSeq t (seq.map (fun x => (f, x.2))) = .ok (rs, t1) := by
  intro seq
  induction seq with
  | nil => intro t o _ _; exact ⟨[], t, rfl, fun _ _ => rfl⟩
  | cons x rest ih =>
    intro t o hp hall
    obtain ⟨g, args⟩ := x
    have hpl := lt_of_getElem?_eq_some hp
    have hg := hall (g, args) (List.mem_cons_self _ _)
    obtain ⟨rs, t1, h1, h2⟩ := ih (t.store p (o.call args).2) (o.call args).2
      (by simp [State.store, hpl])
      (fun y hy => by simpa [State.store] using hall y (List.mem_cons_of_mem _ hy))
    refine ⟨.ok (o.call args).1 :: rs, t1,
      callSeq_cons _ _ _ g args rest _ _ (call_bound t g p o args hg hp) h1, ?_⟩
    intro f hf
    have h3 := h2 f (by simpa [State.store] using hf)
    exact callSeq_cons _ _ _ f args _ _ _ (call_bound t f p o args hf hp) h3

/-- C13: let `f` be bound to a live object and `g` be copy-constructed from `f`.  Every
sequence of invocations, each through `f` or through `g`, succeeds and gives the same
outcomes, and the same final state, as the same invocations all made through `f`: what an
invocation through one of them does to the stored callable is seen through the other. -/
theorem copy_shares_callable_state (s : State A R) (f p : Nat) (o : Invokable A R)
    (hf : s.handles[f]? = some (some (some p))) (hp : s.heap[p]? = some (some o)) :
    ∃ s1 g, Function.ctor_copy s f = .ok (s1, g) ∧ g ≠ f ∧
      ∀ seq : List (Nat × A), (∀ x ∈ seq, x.1 = f ∨ x.1 = g) →
        ∃ rs s2, callSeq s1 seq = .ok (rs, s2) ∧
          callSeq s1 (seq.map (fun x => (f, x.2))) = .ok (rs, s2) := by
  have hfl := lt_of_getElem?_eq_some hf
  have hpl := lt_of_getElem?_eq_some hp
  refine ⟨_, _, ctor_copy_eq s f p o hf hp, by omega, ?_⟩
  intro seq hseq
  have hf1 : (s.handles ++ [some (some p)])[f]? = some (some (some p)) := by
    simpa [List.getElem?_append_left hfl] using hf
  obtain ⟨rs, s2, h1, h2⟩ := callSeq_shared p seq
    (⟨s.heap.set p (some { o with _ref_counter := (o._ref_counter + 1) % (SIZE_MAX + 1) }),
      s.handles ++ [some (some p)], s.deleted⟩ : State A R)
    { o with _ref_counter := (o._ref_counter + 1) % (SIZE_MAX + 1) } (by simp [hpl])
    (by
      intro x hx
      rcases hseq x hx with e | e
      · rw [e]; exact hf1
      · rw [e]; simp)
  exact ⟨rs, s2, h1, h2 f hf1⟩

/-- Witness of C13: the counter functor, invoked through the original, the copy and the
original again. -/
theorem copy_shares_callable_state_witness :
    oneCounter.handles[0]? = some (some (some 0)) ∧
    oneCounter.heap[0]? = some (some ⟨1, Functor_i 0⟩) ∧
    (∃ s1 g, Function.ctor_copy oneCounter 0 = .ok (s1, g) ∧ g ≠ 0 ∧
      ∀ seq : List (Nat × Unit), (∀ x ∈ seq, x.1 = 0 ∨ x.1 = g) →
        ∃ rs s2, callSeq s1 seq = .ok (rs, s2) ∧
          callSeq s1 (seq.map (fun x => (0, x.2))) = .ok (rs, s2)) ∧
    Function.ctor_copy oneCounter 0 =
      .ok (⟨[some ⟨2, Functor_i 0⟩], [some (some 0), some (some 0)], []⟩, 1) ∧
    callSeq (⟨[some ⟨2, Functor_i 0⟩], [some (some 0), some (some 0)], []⟩ : State Unit Int)
        [(0, ()), (1, ()), (0, ())] =
      .ok ([.ok 0, .ok 1, .ok 2],
        ⟨[some ⟨2, Functor_i 3⟩], [some (some 0), some (some 0)], []⟩) :=
  ⟨rfl, rfl, copy_shares_callable_state oneCounter 0 0 ⟨1, Functor_i 0⟩ rfl rfl, rfl, rfl⟩

/-! ## A Function that takes arguments -/

theorem rangeSum_self (a : Int) : rangeSum a a = a := by
  simp [rangeSum]

theorem rangeSum_step (a b : Int) (h : a < b) : rangeSum a b = a + rangeSum (a + 1) b := by
  unfold rangeSum
  rw [Finset.Icc_eq_cons_Ioc (le_of_lt h), Finset.sum_cons]
  congr 1
  apply Finset.sum_congr _ (fun _ _ => rfl)
  ext x
  simp only [Finset.mem_Ioc, Finset.mem_Icc]
  omega

theorem sum_range_func_eq : ∀ (d : Nat) (a b : Int), (b - a).toNat = d → a ≤ b →
    INT_MIN ≤ b → b ≤ INT_MAX → sum_range_func a b = some (wrapInt (rangeSum a b)) := by
  intro d
  induction d with
  | zero =>
    intro a b hd hab h1 h2
    have hab2 : a = b := by omega
    subst hab2
    rw [sum_range_func]
    simp [rangeSum_self, wrapInt_of_fits a h1 h2]
  | succ d ih =>
    intro a b hd hab h1 h2
    have hlt : a < b := by omega
    rw [sum_range_func]
    simp only [hab, if_true, hlt, dite_true]
    rw [ih (a + 1) b (by omega) (by omega) h1 h2]
    simp only [wrapInt_add_wrapInt, rangeSum_step a b hlt]

/-- C15: for `int` values `a ≤ b` whose range sum fits in `int`, a Function constructed from
`sum_range_func` and invoked with `(a, b)` returns the sum of all integers from `a` to `b`
inclusive, which is also what the direct call `sum_range_func(a, b)` returns; the sum of
20..25 is 135. -/
theorem sum_range_through_function (s : State (Int × Int) (Option Int)) (a b : Int)
    (ha : INT_MIN ≤ a) (hb : b ≤ INT_MAX) (hab : a ≤ b)
    (hlo : INT_MIN ≤ rangeSum a b) (hhi : rangeSum a b ≤ INT_MAX) :
    ∃ s1 f s2, Function.ctor_value s sum_range_func_target = .ok (s1, f) ∧
      Function.call s1 f (a, b) = .ok (.ok (some (rangeSum a b)), s2) ∧
      sum_range_func a b = some (rangeSum a b) ∧
      rangeSum 20 25 = 135 := by
  have hdirect : sum_range_func a b = some (rangeSum a b) := by
    rw [sum_range_func_eq _ a b rfl hab (by omega) hb, wrapInt_of_fits _ hlo hhi]
  have hcall := call_bound
    (⟨s.heap ++ [some ⟨1, sum_range_func_target⟩], s.handles ++ [some (some s.heap.length)],
      s.deleted⟩ : State (Int × Int) (Option Int)) s.handles.length s.heap.length
    ⟨1, sum_range_func_target⟩ (a, b) (by simp) (by simp)
  have hres : (Invokable.call (⟨1, sum_range_func_target⟩ :
      Invokable (Int × Int) (Option Int)) (a, b)).1 = some (rangeSum a b) := hdirect
  rw [hres] at hcall
  exact ⟨_, _, _, ctor_value_eq s sum_range_func_target, hcall, hdirect, by decide⟩

/-- Witness of C15: the test's call `sum_range(20, 25)`. -/
theorem sum_range_through_function_witness :
    INT_MIN ≤ 20 ∧ (25 : Int) ≤ INT_MAX ∧ (20 : Int) ≤ 25 ∧
    INT_MIN ≤ rangeSum 20 25 ∧ rangeSum 20 25 ≤ INT_MAX ∧
    ∃ s1 f s2, Function.ctor_value State.empty sum_range_func_target = .ok (s1, f) ∧
      Function.call s1 f (20, 25) = .ok (.ok (some (rangeSum 20 25)), s2) ∧
      sum_range_func 20 25 = some (rangeSum 20 25) ∧
      rangeSum 20 25 = 135 :=
  ⟨by decide, by decide, by decide, by decide, by decide,
    sum_range_through_function State.empty 20 25 (by decide) (by decide) (by decide)
      (by decide) (by decide)⟩

/-! ## Functions that share one object -/

theorem refs_two (s : State A R) (a b p : Nat) (hab : a ≠ b)
    (ha : s.handles[a]? = some (some (some p))) (hb : s.handles[b]? = some (some (some p))) :
    2 ≤ s.refs p := by
  have h := refs_set s a p none s.heap s.deleted _ ha
  simp at h
  have h2 := refs_pos (⟨s.heap, s.handles.set a none, s.deleted⟩ : State A R) b p
    (by simpa [List.getElem?_set_ne hab] using hb)
  omega

theorem drop_sharer (s : State A R) (a b p : Nat) (o : Invokable A R) (hinv : s.Inv)
    (hab : a ≠ b) (ha : s.handles[a]? = some (some (some p)))
    (hb : s.handles[b]? = some (some (some p))) (hp : s.heap[p]? = some (some o)) :
    2 ≤ o._ref_counter ∧ o._ref_counter ≤ SIZE_MAX ∧
    Function.drop s a =
      .ok ⟨s.heap.set p (some { o with _ref_counter := o._ref_counter - 1 }),
        s.handles.set a (some none), s.deleted⟩ ∧
    Function.dtor s a =
      .ok ⟨s.heap.set p (some { o with _ref_counter := o._ref_counter - 1 }),
        s.handles.set a none, s.deleted⟩ := by
  obtain ⟨hcnt, _⟩ := hinv.counted p o hp
  have h2 := refs_two s a b p hab ha hb
  have hle : s.refs p ≤ SIZE_MAX := le_trans (refs_le_live s p) hinv.fits
  have hc1 : o._ref_counter ≠ 1 := by omega
  have hmod := decr_mod o._ref_counter (by omega) (by omega)
  refine ⟨by omega, by omega, ?_, ?_⟩
  · rw [drop_bound s a p o ha hp]
    simp [unbound, hc1, hmod]
  · rw [dtor_bound s a p o ha hp]
    simp [unbound, hc1, hmod]

/-- C17: in a state satisfying the counting invariant, let the distinct living Functions `a`
and `b` both point to the live object `p`.  Its counter is then at least 2, and the
assignment `a = b` succeeds without releasing `p`: the release block lowers the counter by
one (state `s1`, nothing deleted), the binding step raises it again, and afterwards `a` and
`b` both point to `p`, `p` is live with the counter and the stored callable it had, and the
release log is unchanged; the state after the assignment is the state before it. -/
theorem assign_between_sharers (s : State A R) (a b p : Nat) (o : Invokable A R)
    (hinv : s.Inv) (hab : a ≠ b) (ha : s.handles[a]? = some (some (some p)))
    (hb : s.handles[b]? = some (some (some p))) (hp : s.heap[p]? = some (some o)) :
    2 ≤ o._ref_counter ∧
    ∃ s1 s2, Function.drop s a = .ok s1 ∧
      s1.heap[p]? = some (some { o with _ref_counter := o._ref_counter - 1 }) ∧
      s1.deleted = s.deleted ∧
      Function.assign s a b = .ok s2 ∧
      s2.handles[a]? = some (some (some p)) ∧ s2.handles[b]? = some (some (some p)) ∧
      s2.heap[p]? = some (some o) ∧ s2.deleted = s.deleted ∧ s2 = s := by
  obtain ⟨h2, hle, hd, _⟩ := drop_sharer s a b p o hinv hab ha hb hp
  have hal := lt_of_getElem?_eq_some ha
  have hpl := lt_of_getElem?_eq_some hp
  have hmod : (o._ref_counter - 1 + 1) % (SIZE_MAX + 1) = o._ref_counter := by
    rw [Nat.sub_add_cancel (by omega)]
    exact Nat.mod_eq_of_lt (by omega)
  have hassign : Function.assign s a b = .ok s := by
    have hb1 : (s.handles.set a (some none))[b]? = some (some (some p)) := by
      simpa [List.getElem?_set_ne hab] using hb
    simp only [Function.assign, hab, if_false, hd]
    rw [readInvokable_alive _ b _ hb1]
    simp only []
    rw [acquire_eq _ a p { o with _ref_counter := o._ref_counter - 1 } (by simp [hpl])]
    simp only [hmod, List.set_set]
    rw [set_of_getElem? s.heap p (some o) hp, set_of_getElem? s.handles a _ ha]
  exact ⟨h2, _, s, hd, by simp [hpl], rfl, hassign, ha, hb, hp, rfl, rfl⟩

/-- Witness of C17: `f = g` where `g` was copy-constructed from `f`. -/
theorem assign_between_sharers_witness :
    twoSharing.Inv ∧ 0 ≠ 1 ∧ twoSharing.handles[0]? = some (some (some 0)) ∧
    twoSharing.handles[1]? = some (some (some 0)) ∧
    twoSharing.heap[0]? = some (some ⟨2, one_hundred_ret_func⟩) ∧
    ∃ s1 s2, Function.drop twoSharing 0 = .ok s1 ∧
      s1.heap[0]? = some (some ⟨1, one_hundred_ret_func⟩) ∧
      Function.assign twoSharing 0 1 = .ok s2 ∧ s2 = twoSharing := by
  refine ⟨reachable_inv _ reachable_twoSharing, by decide, rfl, rfl, rfl, ?_⟩
  obtain ⟨_, s1, s2, h1, h2, _, h4, _, _, _, _, h9⟩ :=
    assign_between_sharers twoSharing 0 1 0 ⟨2, one_hundred_ret_func⟩
      (reachable_inv _ reachable_twoSharing) (by decide) rfl rfl rfl
  exact ⟨s1, s2, h1, h2, h4, h9⟩

theorem callSeq_congr (b p : Nat) : ∀ (argsList : List A) (t u : State A R)
    (o o2 : Invokable A R), t.handles[b]? = some (some (some p)) →
    u.handles[b]? = some (some (some p)) → t.heap[p]? = some (some o) →
    u.heap[p]? = some (some o2) → o2._function_type = o._function_type →
    ∃ rs t1 u1, callSeq t (argsList.map (fun x => (b, x))) = .ok (rs, t1) ∧
      callSeq u (argsList.map (fun x => (b, x))) = .ok (rs, u1) := by
  intro argsList
  induction argsList with
  | nil => intro t u _ _ _ _ _ _ _; exact ⟨[], t, u, rfl, rfl⟩
  | cons args rest ih =>
    intro t u o o2 htb hub htp hup hfun
    have htl := lt_of_getElem?_eq_some htp
    have hul := lt_of_getElem?_eq_some hup
    obtain ⟨rs, t1, u1, h1, h2⟩ := ih (t.store p (o.call args).2) (u.store p (o2.call args).2)
      (o.call args).2 (o2.call args).2 (by simpa [State.store] using htb)
      (by simpa [State.store] using hub) (by simp [State.store, htl])
      (by simp [State.store, hul]) (by simp [Invokable.call, hfun])
    have hcu := call_bound u b p o2 args hub hup
    have hres : (o2.call args).1 = (o.call args).1 := by simp [Invokable.call, hfun]
    rw [hres] at hcu
    exact ⟨.ok (o.call args).1 :: rs, t1, u1,
      callSeq_cons _ _ _ b args _ _ _ (call_bound t b p o args htb htp) h1,
      callSeq_cons _ _ _ b args _ _ _ hcu h2⟩

theorem assign_from_sharer (s : State A R) (a b h p : Nat) (pt : Option Nat)
    (o : Invokable A R) (hinv : s.Inv) (hab : a ≠ b) (hha : h ≠ a)
    (ha : s.handles[a]? = some (some (some p))) (hb : s.handles[b]? = some (some (some p)))
    (hp : s.heap[p]? = some (some o)) (hh : s.handles[h]? = some (some pt)) :
    ∃ s1 o1, Function.assign s a h = .ok s1 ∧ s1.handles[b]? = some (some (some p)) ∧
      s1.heap[p]? = some (some o1) ∧ o1._function_type = o._function_type := by
  obtain ⟨_, _, hd, _⟩ := drop_sharer s a b p o hinv hab ha hb hp
  have hpl := lt_of_getElem?_eq_some hp
  have hne : a ≠ h := fun e => hha e.symm
  have hh1 : (s.handles.set a (some none))[h]? = some (some pt) := by
    simpa [List.getElem?_set_ne hne] using hh
  have hb1 : (s.handles.set a (some none))[b]? = some (some (some p)) := by
    simpa [List.getElem?_set_ne hab] using hb
  cases pt with
  | none =>
    have hassign : Function.assign s a h =
        .ok ⟨s.heap.set p (some { o with _ref_counter := o._ref_counter - 1 }),
          s.handles.set a (some none), s.deleted⟩ := by
      simp only [Function.assign, hne, if_false, hd]
      rw [readInvokable_alive _ h _ hh1]
    exact ⟨_, { o with _ref_counter := o._ref_counter - 1 }, hassign, hb1, by simp [hpl], rfl⟩
  | some q =>
    obtain ⟨oq, hq⟩ := hinv.bound_live h q hh
    have hql := lt_of_getElem?_eq_some hq
    by_cases hqp : q = p
    · subst hqp
      have hassign : Function.assign s a h =
          .ok ⟨(s.heap.set q (some { o with _ref_counter := o._ref_counter - 1 })).set q
              (some { o with _ref_counter := (o._ref_counter - 1 + 1) % (SIZE_MAX + 1) }),
            (s.handles.set a (some none)).set a (some (some q)), s.deleted⟩ := by
        simp only [Function.assign, hne, if_false, hd]
        rw [readInvokable_alive _ h _ hh1]
        simp only []
        rw [acquire_eq _ a q { o with _ref_counter := o._ref_counter - 1 } (by simp [hpl])]
      exact ⟨_, { o with _ref_counter := (o._ref_counter - 1 + 1) % (SIZE_MAX + 1) }, hassign,
        by simpa [List.getElem?_set_ne hab] using hb, by simp [hpl], rfl⟩
    · have hassign : Function.assign s a h =
          .ok ⟨(s.heap.set p (some { o with _ref_counter := o._ref_counter - 1 })).set q
              (some { oq with _ref_counter := (oq._ref_counter + 1) % (SIZE_MAX + 1) }),
            (s.handles.set a (some none)).set a (some (some q)), s.deleted⟩ := by
        simp only [Function.assign, hne, if_false, hd]
        rw [readInvokable_alive _ h _ hh1]
        simp only []
        rw [acquire_eq _ a q oq (by simpa [List.getElem?_set_ne (Ne.symm hqp)] using hq)]
      exact ⟨_, { o with _ref_counter := o._ref_counter - 1 }, hassign,
        by simpa [List.getElem?_set_ne hab] using hb,
        by simp [hpl, List.getElem?_set_ne hqp], rfl⟩

theorem assign_value_from_sharer (s : State A R) (a b p : Nat) (c : Callable A R)
    (o : Invokable A R) (hinv : s.Inv) (hab : a ≠ b)
    (ha : s.handles[a]? = some (some (some p))) (hb : s.handles[b]? = some (some (some p)))
    (hp : s.heap[p]? = some (some o)) :
    ∃ s1 o1, Function.assign_value s a c = .ok s1 ∧ s1.handles[b]? = some (some (some p)) ∧
      s1.heap[p]? = some (some o1) ∧ o1._function_type = o._function_type := by
  obtain ⟨_, _, hd, _⟩ := drop_sharer s a b p o hinv hab ha hb hp
  have hpl := lt_of_getElem?_eq_some hp
  have h2 := acquire_new_eq (⟨s.heap.set p (some { o with _ref_counter := o._ref_counter - 1 }),
    s.handles.set a (some none), s.deleted⟩ : State A R) a c
  simp only [State.new] at h2
  have hassign : Function.assign_value s a c =
      .ok ⟨s.heap.set p (some { o with _ref_counter := o._ref_counter - 1 }) ++
          [some ⟨1, c⟩],
        (s.handles.set a (some none)).set a (some (some
          (s.heap.set p (some { o with _ref_counter := o._ref_counter - 1 })).length)),
        s.deleted⟩ := by
    simp only [Function.assign_value, hd, State.new]
    exact h2
  have hl : p < (s.heap.set p (some { o with _ref_counter := o._ref_counter - 1 })).length := by
    simpa using hpl
  exact ⟨_, { o with _ref_counter := o._ref_counter - 1 }, hassign,
    by simpa [List.getElem?_set_ne hab] using hb,
    by simp [List.getElem?_append_left hl, hpl], rfl⟩

/-- C20: in a state satisfying the counting invariant, let the distinct living Functions `a`
and `b` both point to the live object `p`.  Destroying `a`, assigning a callable value to
`a`, and assigning to `a` any other living Function (bound or empty) all succeed, and after
each of them `b` still points to `p`, `p` is live and stores the callable it stored before,
and every sequence of later invocations of `b` returns the outcomes it returns in the state
in which `a` was left alone. -/
theorem sharer_isolated (s : State A R) (a b p : Nat) (o : Invokable A R)
    (hinv : s.Inv) (hab : a ≠ b) (ha : s.handles[a]? = some (some (some p)))
    (hb : s.handles[b]? = some (some (some p))) (hp : s.heap[p]? = some (some o)) :
    (∃ s1, Function.dtor s a = .ok s1) ∧
    (∀ c, ∃ s1, Function.assign_value s a c = .ok s1) ∧
    (∀ h pt, h ≠ a → s.handles[h]? = some (some pt) → ∃ s1, Function.assign s a h = .ok s1) ∧
    ∀ s1, (Function.dtor s a = .ok s1 ∨
        (∃ c, Function.assign_value s a c = .ok s1) ∨
        (∃ h pt, h ≠ a ∧ s.handles[h]? = some (some pt) ∧ Function.assign s a h = .ok s1)) →
      s1.handles[b]? = some (some (some p)) ∧
      (∃ o1, s1.heap[p]? = some (some o1) ∧ o1._function_type = o._function_type) ∧
      ∀ argsList : List A, ∃ rs t t1,
        callSeq s (argsList.map (fun x => (b, x))) = .ok (rs, t) ∧
        callSeq s1 (argsList.map (fun x => (b, x))) = .ok (rs, t1) := by
  obtain ⟨_, _, _, hdt⟩ := drop_sharer s a b p o hinv hab ha hb hp
  have hpl := lt_of_getElem?_eq_some hp
  have hkept : ∀ (s1 : State A R) (o1 : Invokable A R),
      s1.handles[b]? = some (some (some p)) → s1.heap[p]? = some (some o1) →
      o1._function_type = o._function_type →
      s1.handles[b]? = some (some (some p)) ∧
      (∃ o1, s1.heap[p]? = some (some o1) ∧ o1._function_type = o._function_type) ∧
      ∀ argsList : List A, ∃ rs t t1,
        callSeq s (argsList.map (fun x => (b, x))) = .ok (rs, t) ∧
        callSeq s1 (argsList.map (fun x => (b, x))) = .ok (rs, t1) :=
    fun s1 o1 h1 h2 h3 =>
      ⟨h1, ⟨o1, h2, h3⟩, fun argsList => callSeq_congr b p argsList s s1 o o1 hb h1 hp h2 h3⟩
  refine ⟨⟨_, hdt⟩, ?_, ?_, ?_⟩
  · intro c
    obtain ⟨s1, _, h1, _⟩ := assign_value_from_sharer s a b p c o hinv hab ha hb hp
    exact ⟨s1, h1⟩
  · intro h pt hha hh
    obtain ⟨s1, _, h1, _⟩ := assign_from_sharer s a b h p pt o hinv hab hha ha hb hp hh
    exact ⟨s1, h1⟩
  · rintro s1 (h | ⟨c, h⟩ | ⟨h2, pt, hha, hh, h⟩)
    · rw [hdt] at h
      cases h
      exact hkept _ { o with _ref_counter := o._ref_counter - 1 }
        (by simpa [List.getElem?_set_ne hab] using hb) (by simp [hpl]) rfl
    · obtain ⟨s2, o1, h1, h3, h4, h5⟩ :=
        assign_value_from_sharer s a b p c o hinv hab ha hb hp
      rw [h1] at h
      cases h
      exact hkept _ o1 h3 h4 h5
    · obtain ⟨s2, o1, h1, h3, h4, h5⟩ :=
        assign_from_sharer s a b h2 p pt o hinv hab hha ha hb hp hh
      rw [h1] at h
      cases h
      exact hkept _ o1 h3 h4 h5

/-- Witness of C20: of two Functions sharing one object, the first is destroyed. -/
theorem sharer_isolated_witness :
    twoSharing.Inv ∧ 0 ≠ 1 ∧ twoSharing.handles[0]? = some (some (some 0)) ∧
    twoSharing.handles[1]? = some (some (some 0)) ∧
    twoSharing.heap[0]? = some (some ⟨2, one_hundred_ret_func⟩) ∧
    (∃ s1, Function.dtor twoSharing 0 = .ok s1) ∧
    ∀ s1, Function.dtor twoSharing 0 = .ok s1 → s1.handles[1]? = some (some (some 0)) :=
  ⟨reachable_inv _ reachable_twoSharing, by decide, rfl, rfl, rfl,
    (sharer_isolated twoSharing 0 1 0 ⟨2, one_hundred_ret_func⟩
      (reachable_inv _ reachable_twoSharing) (by decide) rfl rfl rfl).1,
    fun s1 h => ((sharer_isolated twoSharing 0 1 0 ⟨2, one_hundred_ret_func⟩
      (reachable_inv _ reachable_twoSharing) (by decide) rfl rfl rfl).2.2.2 s1 (Or.inl h)).1⟩

/-! ## The recursive lambda -/

theorem rangeSum_succ_right (a b : Int) (h : a ≤ b + 1) :
    rangeSum a (b + 1) = rangeSum a b + (b + 1) := by
  unfold rangeSum
  have hins : Finset.Icc a (b + 1) = insert (b + 1) (Finset.Icc a b) := by
    ext x
    simp only [Finset.mem_Icc, Finset.mem_insert]
    omega
  rw [hins, Finset.sum_insert (by simp), add_comm]

theorem rangeSum_nonneg (a b : Int) (h : 0 ≤ a) : 0 ≤ rangeSum a b := by
  unfold rangeSum
  apply Finset.sum_nonneg
  intro i hi
  have := (Finset.mem_Icc.mp hi).1
  omega

theorem call_lambda (t : State Int (Body Int Int)) (h p c : Nat) (x : Int)
    (hh : t.handles[h]? = some (some (some p)))
    (hp : t.heap[p]? = some (some ⟨c, recursive_lambda h⟩)) :
    Function.call t h x = .ok (.ok ((recursive_lambda h).call () x).1, t) := by
  have hcall := call_bound t h p ⟨c, recursive_lambda h⟩ x hh hp
  have hst : t.store p (Invokable.call ⟨c, recursive_lambda h⟩ x).2 = t := by
    show (⟨t.heap.set p (some ⟨c, recursive_lambda h⟩), t.handles, t.deleted⟩ :
      State Int (Body Int Int)) = t
    rw [set_of_getElem? t.heap p _ hp]
  rw [hst] at hcall
  exact hcall

theorem exec_lambda (t : State Int (Body Int Int)) (h p c : Nat)
    (hh : t.handles[h]? = some (some (some p)))
    (hp : t.heap[p]? = some (some ⟨c, recursive_lambda h⟩)) :
    ∀ (d fuel : Nat) (g : Int → Int), d + 2 ≤ fuel → 25 + (d : Int) ≤ INT_MAX →
      exec fuel t (.invoke h (25 + (d : Int)) (fun r => .ret (g r))) =
        some (g (wrapInt (rangeSum 25 (25 + (d : Int)))), t) := by
  intro d
  induction d with
  | zero =>
    intro fuel g hf _
    obtain ⟨n, rfl⟩ : ∃ n, fuel = n + 2 := ⟨fuel - 2, by omega⟩
    have hbody : ((recursive_lambda h).call () (25 + ((0 : Nat) : Int))).1 = .ret 25 := by
      simp [recursive_lambda]
    simp only [exec, call_lambda t h p c _ hh hp, hbody]
    simp [rangeSum_self, wrapInt]
  | succ d ih =>
    intro fuel g hf hmax
    obtain ⟨n, rfl⟩ : ∃ n, fuel = n + 1 := ⟨fuel - 1, by omega⟩
    obtain ⟨m, hm⟩ : ∃ m, n = m + 1 := ⟨n - 1, by omega⟩
    push_cast at hmax ⊢
    have hpred : wrapInt (25 + ((d : Int) + 1) - 1) = 25 + (d : Int) := by
      rw [wrapInt_of_fits _ (by unfold INT_MIN; omega) (by omega)]
      omega
    have hbody : ((recursive_lambda h).call () (25 + ((d : Int) + 1))).1 =
        .invoke h (25 + (d : Int))
          (fun r => .ret (wrapInt (25 + ((d : Int) + 1) + r))) := by
      have h1 : (25 : Int) ≤ 25 + ((d : Int) + 1) := by omega
      have h2 : ¬ (25 : Int) = 25 + ((d : Int) + 1) := by omega
      simp only [recursive_lambda, h1, h2, if_true, if_false, hpred]
    have hinner := ih n (fun r => wrapInt (25 + ((d : Int) + 1) + r)) (by omega) (by omega)
    simp only [exec, call_lambda t h p c _ hh hp, hbody, hinner]
    subst hm
    simp only [exec]
    rw [wrapInt_add_wrapInt, ← add_assoc, rangeSum_succ_right 25 (25 + (d : Int)) (by omega)]
    congr 4
    ring

/-- C18: let `sum_range` be the Function constructed from the recursive lambda that captures
`sum_range` itself by reference.  For every `int` `n ≥ 25` whose range sum 25..n fits in
`int`, invoking `sum_range(n)` terminates (every fuel from `n - 25 + 2` on suffices), leaves
the state as it was and returns the sum of the integers from 25 to `n`, which is the value
`sum_range_func(25, n)` returns; for `n = 50` that value is 975. -/
theorem recursive_lambda_sums (s : State Int (Body Int Int)) (n : Int) (hn : 25 ≤ n)
    (hmax : n ≤ INT_MAX) (hfit : rangeSum 25 n ≤ INT_MAX) :
    ∃ s1 f, Function.ctor_value s (recursive_lambda s.handles.length) = .ok (s1, f) ∧
      f = s.handles.length ∧
      (∀ fuel, (n - 25).toNat + 2 ≤ fuel →
        exec fuel s1 (.invoke f n .ret) = some (rangeSum 25 n, s1)) ∧
      sum_range_func 25 n = some (rangeSum 25 n) ∧
      rangeSum 25 50 = 975 := by
  have hlo : INT_MIN ≤ rangeSum 25 n :=
    le_trans (by decide) (rangeSum_nonneg 25 n (by decide))
  have hw := wrapInt_of_fits _ hlo hfit
  refine ⟨_, _, ctor_value_eq s (recursive_lambda s.handles.length), rfl, ?_, ?_, by decide⟩
  · intro fuel hfuel
    have hd : n = 25 + (((n - 25).toNat : Nat) : Int) := by omega
    have h := exec_lambda
      (⟨s.heap ++ [some ⟨1, recursive_lambda s.handles.length⟩],
        s.handles ++ [some (some s.heap.length)], s.deleted⟩ : State Int (Body Int Int))
      s.handles.length s.heap.length 1 (by simp) (by simp) (n - 25).toNat fuel (fun r => r)
      hfuel (by omega)
    rw [← hd, hw] at h
    exact h
  · rw [sum_range_func_eq _ 25 n rfl hn (by unfold INT_MIN; omega) hmax, hw]

/-- Witness of C18: the test's call `sum_range(50)`. -/
theorem recursive_lambda_sums_witness :
    (25 : Int) ≤ 50 ∧ (50 : Int) ≤ INT_MAX ∧ rangeSum 25 50 ≤ INT_MAX ∧
    ∃ s1 f, Function.ctor_value (State.empty : State Int (Body Int Int))
        (recursive_lambda 0) = .ok (s1, f) ∧ f = 0 ∧
      (∀ fuel, ((50 : Int) - 25).toNat + 2 ≤ fuel →
        exec fuel s1 (.invoke f 50 .ret) = some (rangeSum 25 50, s1)) ∧
      sum_range_func 25 50 = some (rangeSum 25 50) ∧
      rangeSum 25 50 = 975 :=
  ⟨by decide, by decide, by decide,
    recursive_lambda_sums State.empty 50 (by decide) (by decide) (by decide)⟩

end ms
